import Mathlib

/-!
Verification of the streaming chat orchestration core of the VS Code
sidebar chat extension (ChatService, OpenAIProvider, OllamaProvider,
MockProvider) against its natural-language specification.

The TypeScript sources are shallowly embedded:
* strings of bytes arriving from the network are modelled as `List Char`
  chunks (the UTF-8 decoding step with `stream:true` is transparent at
  this granularity);
* `JSON.parse` is modelled by an executable JSON reader `jparse`;
* the single-threaded event-loop semantics of the orchestrator is
  modelled as a deterministic labelled transition system whose atomic
  steps are the synchronous callback bodies of the source.
-/

namespace ChatSpec

/-! ### Decimal string of a natural number

`ChatService.startStreaming` generates the assistant message id as
`String(Date.now())` (ChatService.ts:159).  `decStr` is the decimal
numeral of a natural number, together with a proof that it is injective,
so that distinct clock readings give distinct ids and equal clock
readings give equal ids. -/

/-- One decimal digit character. -/
def digitCh (m : Nat) : Char :=
  if m = 0 then '0' else if m = 1 then '1' else if m = 2 then '2'
  else if m = 3 then '3' else if m = 4 then '4' else if m = 5 then '5'
  else if m = 6 then '6' else if m = 7 then '7' else if m = 8 then '8'
  else '9'

/-- Numeric value of a decimal digit character. -/
def digitVal (c : Char) : Nat :=
  if c = '0' then 0 else if c = '1' then 1 else if c = '2' then 2
  else if c = '3' then 3 else if c = '4' then 4 else if c = '5' then 5
  else if c = '6' then 6 else if c = '7' then 7 else if c = '8' then 8
  else 9

/-- Least-significant-first decimal digits of a positive number, with fuel. -/
def decAux : Nat → Nat → List Char
  | 0, _ => []
  | _ + 1, 0 => []
  | f + 1, n + 1 => digitCh ((n + 1) % 10) :: decAux f ((n + 1) / 10)

/-- The decimal numeral of `n`, as produced by JavaScript `String(n)` for
a natural number. -/
def decStr (n : Nat) : String :=
  if n = 0 then "0" else ((decAux n n).reverse).asString

/-- Least-significant-first evaluation of a digit list. -/
def valLSB : List Char → Nat
  | [] => 0
  | c :: cs => digitVal c + 10 * valLSB cs

theorem digitVal_digitCh : ∀ m < 10, digitVal (digitCh m) = m := by decide

theorem valLSB_decAux : ∀ f n, n ≤ f → valLSB (decAux f n) = n := by
  intro f
  induction f with
  | zero => intro n h; interval_cases n; rfl
  | succ f ih =>
    intro n h
    match n with
    | 0 => rfl
    | n + 1 =>
      have hdiv : (n + 1) / 10 ≤ f := by
        have h1 : (n + 1) / 10 < n + 1 := Nat.div_lt_self (Nat.succ_pos n) (by omega)
        omega
      have hmod : (n + 1) % 10 < 10 := Nat.mod_lt _ (by omega)
      calc valLSB (decAux (f + 1) (n + 1))
          = digitVal (digitCh ((n + 1) % 10)) + 10 * valLSB (decAux f ((n + 1) / 10)) := rfl
        _ = (n + 1) % 10 + 10 * ((n + 1) / 10) := by
              rw [digitVal_digitCh _ hmod, ih _ hdiv]
        _ = n + 1 := by omega

/-- Most-significant-first evaluation, the left inverse of `decStr`. -/
def decode (s : String) : Nat :=
  s.data.foldl (fun a c => 10 * a + digitVal c) 0

theorem foldl_digits_append (l : List Char) (c : Char) (a : Nat) :
    (l ++ [c]).foldl (fun a c => 10 * a + digitVal c) a
      = 10 * l.foldl (fun a c => 10 * a + digitVal c) a + digitVal c := by
  rw [List.foldl_append]
  rfl

theorem foldl_reverse_valLSB : ∀ l : List Char,
    l.reverse.foldl (fun a c => 10 * a + digitVal c) 0 = valLSB l := by
  intro l
  induction l with
  | nil => rfl
  | cons c cs ih =>
    rw [List.reverse_cons, foldl_digits_append, ih]
    show 10 * valLSB cs + digitVal c = digitVal c + 10 * valLSB cs
    omega

theorem decode_decStr (n : Nat) : decode (decStr n) = n := by
  by_cases h : n = 0
  · subst h; rfl
  · unfold decStr
    rw [if_neg h]
    show ((decAux n n).reverse).asString.data.foldl _ 0 = n
    have hdata : ((decAux n n).reverse).asString.data = (decAux n n).reverse := rfl
    rw [hdata, foldl_reverse_valLSB, valLSB_decAux n n (Nat.le_refl n)]

theorem decStr_injective : Function.Injective decStr := by
  intro m n h
  have := congrArg decode h
  rwa [decode_decStr, decode_decStr] at this

/-! ### JSON values and `JSON.parse`

Both streaming providers parse wire frames with `JSON.parse`
(OpenAIProvider.ts:128, OllamaProvider line 117) and then navigate the
resulting value with optional chaining.  `JVal` is the value model and
`jparse` the executable reader; `jparse` returns `none` exactly when
`JSON.parse` would throw a `SyntaxError` (a whole-input parse with
leading/trailing whitespace permitted). -/

inductive JVal where
  | jnull : JVal
  | jbool (b : Bool) : JVal
  | jnum (lit : String) : JVal
  | jstr (s : String) : JVal
  | jarr (elems : List JVal) : JVal
  | jobj (fields : List (String × JVal)) : JVal

/-- JSON insignificant whitespace. -/
def jWs (c : Char) : Bool :=
  c = ' ' ∨ c = '\t' ∨ c = '\n' ∨ c = '\r'

def skipWs (cs : List Char) : List Char := cs.dropWhile jWs

def parseHex (c : Char) : Option Nat :=
  if c.isDigit then some (c.toNat - '0'.toNat)
  else if 'a' ≤ c ∧ c ≤ 'f' then some (c.toNat - 'a'.toNat + 10)
  else if 'A' ≤ c ∧ c ≤ 'F' then some (c.toNat - 'A'.toNat + 10)
  else none

/-- Body of a JSON string literal, after the opening quote; returns the
content and the remainder after the closing quote. -/
def parseStrBody : Nat → List Char → Option (List Char × List Char)
  | 0, _ => none
  | f + 1, cs =>
    match cs with
    | [] => none
    | c :: rest =>
      if c = '"' then some ([], rest)
      else if c = '\\' then
        match rest with
        | [] => none
        | e :: rest2 =>
          let esc : Option (Char × List Char) :=
            if e = '"' then some ('"', rest2)
            else if e = '\\' then some ('\\', rest2)
            else if e = '/' then some ('/', rest2)
            else if e = 'b' then some (Char.ofNat 8, rest2)
            else if e = 'f' then some (Char.ofNat 12, rest2)
            else if e = 'n' then some ('\n', rest2)
            else if e = 'r' then some ('\r', rest2)
            else if e = 't' then some ('\t', rest2)
            else if e = 'u' then
              match rest2 with
              | h1 :: h2 :: h3 :: h4 :: rest3 =>
                match parseHex h1, parseHex h2, parseHex h3, parseHex h4 with
                | some a, some b, some c2, some d =>
                  some (Char.ofNat (((a * 16 + b) * 16 + c2) * 16 + d), rest3)
                | _, _, _, _ => none
              | _ => none
            else none
          match esc with
          | none => none
          | some (ch, rest3) =>
            match parseStrBody f rest3 with
            | none => none
            | some (content, rest4) => some (ch :: content, rest4)
      else if c.toNat < 32 then none
      else
        match parseStrBody f rest with
        | none => none
        | some (content, rest3) => some (c :: content, rest3)

/-- Optional fraction part of a JSON number. -/
def parseFrac (cs : List Char) : Option (List Char × List Char) :=
  match cs with
  | '.' :: rest =>
    let p := rest.span Char.isDigit
    if p.1.isEmpty then none else some ('.' :: p.1, p.2)
  | _ => some ([], cs)

/-- Optional exponent part of a JSON number. -/
def parseExp (cs : List Char) : Option (List Char × List Char) :=
  match cs with
  | [] => some ([], [])
  | c :: rest =>
    if c = 'e' ∨ c = 'E' then
      let sp : List Char × List Char :=
        match rest with
        | s :: r2 => if s = '+' ∨ s = '-' then ([s], r2) else ([], rest)
        | [] => ([], rest)
      let p := sp.2.span Char.isDigit
      if p.1.isEmpty then none else some (c :: (sp.1 ++ p.1), p.2)
    else some ([], cs)

/-- JSON number after an optional sign: integer part with no leading
zeros, optional fraction, optional exponent. -/
def parseNumBody (cs : List Char) : Option (List Char × List Char) :=
  match cs with
  | [] => none
  | c :: rest =>
    if c = '0' then
      match parseFrac rest with
      | none => none
      | some (fr, rest1) =>
        match parseExp rest1 with
        | none => none
        | some (ex, rest2) => some ('0' :: (fr ++ ex), rest2)
    else if c.isDigit then
      let p := rest.span Char.isDigit
      match parseFrac p.2 with
      | none => none
      | some (fr, rest1) =>
        match parseExp rest1 with
        | none => none
        | some (ex, rest2) => some (c :: (p.1 ++ fr ++ ex), rest2)
    else none

mutual

def parseVal : Nat → List Char → Option (JVal × List Char)
  | 0, _ => none
  | f + 1, cs0 =>
    match skipWs cs0 with
    | [] => none
    | c :: rest =>
      if c = '"' then
        match parseStrBody (rest.length + 1) rest with
        | none => none
        | some (content, rest1) => some (JVal.jstr content.asString, rest1)
      else if c = '{' then
        match skipWs rest with
        | '}' :: rest1 => some (JVal.jobj [], rest1)
        | other =>
          match parseObjItems f other with
          | none => none
          | some (fs, rest1) => some (JVal.jobj fs, rest1)
      else if c = '[' then
        match skipWs rest with
        | ']' :: rest1 => some (JVal.jarr [], rest1)
        | other =>
          match parseArrItems f other with
          | none => none
          | some (vs, rest1) => some (JVal.jarr vs, rest1)
      else if c = 't' then
        match rest with
        | 'r' :: 'u' :: 'e' :: rest1 => some (JVal.jbool true, rest1)
        | _ => none
      else if c = 'f' then
        match rest with
        | 'a' :: 'l' :: 's' :: 'e' :: rest1 => some (JVal.jbool false, rest1)
        | _ => none
      else if c = 'n' then
        match rest with
        | 'u' :: 'l' :: 'l' :: rest1 => some (JVal.jnull, rest1)
        | _ => none
      else if c = '-' then
        match parseNumBody rest with
        | none => none
        | some (lex, rest1) => some (JVal.jnum ('-' :: lex).asString, rest1)
      else if c.isDigit then
        match parseNumBody (c :: rest) with
        | none => none
        | some (lex, rest1) => some (JVal.jnum lex.asString, rest1)
      else none

def parseArrItems : Nat → List Char → Option (List JVal × List Char)
  | 0, _ => none
  | f + 1, cs =>
    match parseVal f cs with
    | none => none
    | some (v, rest) =>
      match skipWs rest with
      | ',' :: rest1 =>
        match parseArrItems f rest1 with
        | none => none
        | some (vs, rest2) => some (v :: vs, rest2)
      | ']' :: rest1 => some ([v], rest1)
      | _ => none

def parseObjItems : Nat → List Char → Option (List (String × JVal) × List Char)
  | 0, _ => none
  | f + 1, cs =>
    match skipWs cs with
    | '"' :: rest =>
      match parseStrBody (rest.length + 1) rest with
      | none => none
      | some (key, rest1) =>
        match skipWs rest1 with
        | ':' :: rest2 =>
          match parseVal f rest2 with
          | none => none
          | some (v, rest3) =>
            match skipWs rest3 with
            | ',' :: rest4 =>
              match parseObjItems f rest4 with
              | none => none
              | some (fs, rest5) => some ((key.asString, v) :: fs, rest5)
            | '}' :: rest4 => some ([(key.asString, v)], rest4)
            | _ => none
        | _ => none
    | _ => none

end

/-- `JSON.parse` on a character list: one value, whole input consumed up
to trailing whitespace. -/
def jparse (cs : List Char) : Option JVal :=
  match parseVal (2 * cs.length + 8) cs with
  | none => none
  | some (v, rest) => if (skipWs rest).isEmpty then some v else none

/-- Object field access; later duplicate keys win, as in `JSON.parse`. -/
def jget (j : JVal) (k : String) : Option JVal :=
  match j with
  | JVal.jobj fs => fs.foldl (fun acc f => if f.1 = k then some f.2 else acc) none
  | _ => none

/-- Array index access (`?.[0]`). -/
def jidx (j : JVal) (i : Nat) : Option JVal :=
  match j with
  | JVal.jarr xs => xs.get? i
  | _ => none

/-! ### OpenAIProvider stream parsing

Embedding of the read loop of `OpenAIProvider.stream`
(OpenAIProvider.ts:90-144), for an uncancelled token.  Chunks are what
successive `reader.read()` calls deliver, already decoded to text.  The
loop appends each chunk to `buffer`, splits on `'\n'`, keeps the last
(possibly incomplete) line in the buffer, and handles each complete line
(OpenAIProvider.ts:107-136); on a `data: [DONE]` payload it fires
`onDone` and returns, reading nothing further (112-126); at end of
stream it fires `onDone` (139-144). -/

/-- `String.prototype.trim`. -/
def trimChars (cs : List Char) : List Char :=
  ((cs.dropWhile Char.isWhitespace).reverse.dropWhile Char.isWhitespace).reverse

/-- `trimmed.startsWith('data:')`. -/
def dataHead (cs : List Char) : Bool :=
  match cs with
  | 'd' :: 'a' :: 't' :: 'a' :: ':' :: _ => true
  | _ => false

/-- `trimmed.replace(/^data:\s*/, '')`, applied after `dataHead` holds. -/
def dataPayload (cs : List Char) : List Char :=
  (cs.drop 5).dropWhile Char.isWhitespace

/-- The literal terminal token `[DONE]`. -/
def doneTok : List Char := ['[', 'D', 'O', 'N', 'E', ']']

/-- `json?.choices?.[0]?.delta?.content`, kept only when it is a
non-empty string (OpenAIProvider.ts:129-132). -/
def openaiDelta (j : JVal) : Option String :=
  match jget j "choices" with
  | none => none
  | some c =>
    match jidx c 0 with
    | none => none
    | some c0 =>
      match jget c0 "delta" with
      | none => none
      | some d =>
        match jget d "content" with
        | some (JVal.jstr s) => if 0 < s.length then some s else none
        | _ => none

/-- Outcome of handling one complete line. -/
inductive LineOut where
  | skip : LineOut
  | finish : LineOut
  | emit (d : String) : LineOut

/-- One iteration of the `for (const line of lines)` body
(OpenAIProvider.ts:112-136). -/
def openaiLine (line : List Char) : LineOut :=
  let t := trimChars line
  if dataHead t = false then LineOut.skip
  else
    let data := dataPayload t
    if data = doneTok then LineOut.finish
    else
      match jparse data with
      | none => LineOut.skip
      | some j =>
        match openaiDelta j with
        | some d => LineOut.emit d
        | none => LineOut.skip

/-- Events observed through the provider callbacks. -/
inductive Ev where
  | delta (s : String) : Ev
  | done : Ev
deriving DecidableEq

/-- `buffer.split('\n')` with `buffer = lines.pop() || ''`
(OpenAIProvider.ts:109-111): the complete lines and the retained tail. -/
def splitLines : List Char → List (List Char) × List Char
  | [] => ([], [])
  | c :: cs =>
    let r := splitLines cs
    if c = '\n' then ([] :: r.1, r.2)
    else
      match r with
      | (l :: ls, b) => ((c :: l) :: ls, b)
      | ([], b) => ([], c :: b)

/-- Handle a list of complete lines; the Bool records that `[DONE]` was
seen, after which the loop returns and no further line is handled. -/
def processLines : List (List Char) → List Ev × Bool
  | [] => ([], false)
  | l :: ls =>
    match openaiLine l with
    | LineOut.finish => ([Ev.done], true)
    | LineOut.emit d =>
      let r := processLines ls
      (Ev.delta d :: r.1, r.2)
    | LineOut.skip => processLines ls

/-- The delta events of a line list, up to the first `[DONE]` line. -/
def emitted : List (List Char) → List Ev
  | [] => []
  | l :: ls =>
    match openaiLine l with
    | LineOut.finish => []
    | LineOut.emit d => Ev.delta d :: emitted ls
    | LineOut.skip => emitted ls

/-- Parser state across reads: retained partial line, events so far,
and whether the loop has returned after `[DONE]`. -/
structure PSt where
  buffer : List Char
  events : List Ev
  finished : Bool
deriving DecidableEq

/-- Process one `reader.read()` result (OpenAIProvider.ts:104-137); once
the loop has returned, nothing further is read. -/
def feed (st : PSt) (chunk : List Char) : PSt :=
  if st.finished then st
  else
    let r := splitLines (st.buffer ++ chunk)
    let p := processLines r.1
    ⟨r.2, st.events ++ p.1, p.2⟩

def pInit : PSt := ⟨[], [], false⟩

def feedAll (chunks : List (List Char)) : PSt := chunks.foldl feed pInit

/-- The full event sequence the provider delivers for an uncancelled
stream arriving as `chunks`: the loop events, then the end-of-stream
`onDone` (OpenAIProvider.ts:139-144) unless `[DONE]` already fired it. -/
def runStream (chunks : List (List Char)) : List Ev :=
  let st := feedAll chunks
  if st.finished then st.events else st.events ++ [Ev.done]

/-! ### OllamaProvider stream parsing

Embedding of the read loop of `OllamaProvider.stream` (lines 97-132 of
the provider): newline-delimited JSON objects, blank lines skipped,
malformed lines ignored, `message.content` emitted when a non-empty
string, and a frame with `done === true` fires `onDone` and returns. -/

/-- `json?.message?.content`, kept only when a non-empty string. -/
def ollamaDelta (j : JVal) : Option String :=
  match jget j "message" with
  | none => none
  | some m =>
    match jget m "content" with
    | some (JVal.jstr s) => if 0 < s.length then some s else none
    | _ => none

/-- `json?.done === true`. -/
def ollamaDoneFlag (j : JVal) : Bool :=
  match jget j "done" with
  | some (JVal.jbool true) => true
  | _ => false

/-- One iteration of the Ollama line loop: events fired and whether the
loop returned on this line. -/
def ollamaLine (line : List Char) : List Ev × Bool :=
  let t := trimChars line
  if t.isEmpty then ([], false)
  else
    match jparse t with
    | none => ([], false)
    | some j =>
      let evs : List Ev :=
        match ollamaDelta j with
        | some d => [Ev.delta d]
        | none => []
      if ollamaDoneFlag j then (evs ++ [Ev.done], true) else (evs, false)

def processLinesO : List (List Char) → List Ev × Bool
  | [] => ([], false)
  | l :: ls =>
    let r := ollamaLine l
    if r.2 then r
    else
      let rest := processLinesO ls
      (r.1 ++ rest.1, rest.2)

def feedO (st : PSt) (chunk : List Char) : PSt :=
  if st.finished then st
  else
    let r := splitLines (st.buffer ++ chunk)
    let p := processLinesO r.1
    ⟨r.2, st.events ++ p.1, p.2⟩

def feedAllO (chunks : List (List Char)) : PSt := chunks.foldl feedO pInit

/-- Full event sequence of an uncancelled Ollama stream: the loop
events, then the end-of-stream `onDone` unless a `done:true` frame
already fired it. -/
def runStreamO (chunks : List (List Char)) : List Ev :=
  let st := feedAllO chunks
  if st.finished then st.events else st.events ++ [Ev.done]

/-! ### Line-buffering algebra -/

theorem splitLines_nl (x : List Char) :
    splitLines ('\n' :: x) = ([] :: (splitLines x).1, (splitLines x).2) := by
  simp [splitLines]

theorem splitLines_cons_ne {c : Char} (hc : ¬c = '\n') (x : List Char) :
    splitLines (c :: x)
      = (match (splitLines x).1 with
         | l :: ls => ((c :: l) :: ls, (splitLines x).2)
         | [] => ([], c :: (splitLines x).2)) := by
  rcases hsx : splitLines x with ⟨p1, p2⟩
  cases p1 <;> simp [splitLines, hc, hsx]

theorem splitLines_append (a b : List Char) :
    splitLines (a ++ b)
      = ((splitLines a).1 ++ (splitLines ((splitLines a).2 ++ b)).1,
         (splitLines ((splitLines a).2 ++ b)).2) := by
  induction a with
  | nil => simp [splitLines]
  | cons c cs ih =>
    by_cases hc : c = '\n'
    · subst hc
      rw [List.cons_append, splitLines_nl, splitLines_nl, ih]
      simp
    · rw [List.cons_append, splitLines_cons_ne hc, splitLines_cons_ne hc, ih]
      rcases h1 : (splitLines cs).1 with _ | ⟨l, ls⟩
      · simp only [h1, List.nil_append]
        rcases h2 : (splitLines ((splitLines cs).2 ++ b)).1 with _ | ⟨m, ms⟩
        · simp [splitLines_cons_ne hc, h2]
        · simp [splitLines_cons_ne hc, h2]
      · simp [h1]

theorem splitLines_snd_noNL (cs : List Char) : '\n' ∉ (splitLines cs).2 := by
  induction cs with
  | nil => simp [splitLines]
  | cons c cs ih =>
    by_cases hc : c = '\n'
    · subst hc; rw [splitLines_nl]; exact ih
    · rw [splitLines_cons_ne hc]
      rcases h1 : (splitLines cs).1 with _ | ⟨l, ls⟩
      · simp only []
        intro hmem
        rcases List.mem_cons.mp hmem with h | h
        · exact hc h.symm
        · exact ih h
      · simpa using ih

theorem splitLines_of_noNL {cs : List Char} (h : '\n' ∉ cs) :
    splitLines cs = ([], cs) := by
  induction cs with
  | nil => rfl
  | cons c cs ih =>
    have hc : ¬c = '\n' := fun he => h (he ▸ List.mem_cons_self c cs)
    have hcs : '\n' ∉ cs := fun hm => h (List.mem_cons_of_mem c hm)
    rw [splitLines_cons_ne hc, ih hcs]

theorem splitLines_noNL_newline {l : List Char} (h : '\n' ∉ l) :
    splitLines (l ++ ['\n']) = ([l], []) := by
  induction l with
  | nil => simp [splitLines]
  | cons c cs ih =>
    have hc : ¬c = '\n' := fun he => h (he ▸ List.mem_cons_self c cs)
    have hcs : '\n' ∉ cs := fun hm => h (List.mem_cons_of_mem c hm)
    rw [List.cons_append, splitLines_cons_ne hc, ih hcs]

theorem processLines_append (L1 L2 : List (List Char)) :
    processLines (L1 ++ L2)
      = if (processLines L1).2 then processLines L1
        else ((processLines L1).1 ++ (processLines L2).1, (processLines L2).2) := by
  induction L1 with
  | nil => simp [processLines]
  | cons l ls ih =>
    rcases ho : openaiLine l with _ | _ | d
    · simp only [List.cons_append, processLines, ho]
      exact ih
    · simp [List.cons_append, processLines, ho]
    · by_cases hp : (processLines ls).2 = true
      · simp [List.cons_append, processLines, ho, ih, hp]
      · simp [List.cons_append, processLines, ho, ih, hp]

theorem processLines_eq_emitted (ls : List (List Char)) :
    (processLines ls).1
      = emitted ls ++ (if (processLines ls).2 then [Ev.done] else []) := by
  induction ls with
  | nil => simp [processLines, emitted]
  | cons l ls ih =>
    rcases ho : openaiLine l with _ | _ | d <;>
      simp only [processLines, emitted, ho, ih] <;> split <;> simp_all

theorem done_not_mem_emitted (ls : List (List Char)) : Ev.done ∉ emitted ls := by
  induction ls with
  | nil => simp [emitted]
  | cons l ls ih =>
    rcases ho : openaiLine l with _ | _ | d <;> simp [emitted, ho, ih]

theorem emitted_skip_insert {l : List Char} (h : openaiLine l = LineOut.skip)
    (X Y : List (List Char)) : emitted (X ++ l :: Y) = emitted (X ++ Y) := by
  induction X with
  | nil => simp [emitted, h]
  | cons x xs ih =>
    rcases ho : openaiLine x with _ | _ | d <;> simp [emitted, ho, ih]

/-- The observable part of the parser state: retained buffers may differ
after the loop has returned, but events and the returned flag agree. -/
def obsEq (s t : PSt) : Prop :=
  s.events = t.events ∧ s.finished = t.finished ∧
    (s.finished = false → s.buffer = t.buffer)

theorem obsEq_refl (s : PSt) : obsEq s s := ⟨rfl, rfl, fun _ => rfl⟩

theorem obsEq_trans {s t u : PSt} (h1 : obsEq s t) (h2 : obsEq t u) : obsEq s u := by
  refine ⟨h1.1.trans h2.1, h1.2.1.trans h2.2.1, fun hf => ?_⟩
  exact (h1.2.2 hf).trans (h2.2.2 (h1.2.1 ▸ hf))

theorem feed_finished {st : PSt} (h : st.finished = true) (c : List Char) :
    feed st c = st := by
  simp [feed, h]

theorem feed_append (st : PSt) (a b : List Char) :
    obsEq (feed (feed st a) b) (feed st (a ++ b)) := by
  by_cases hf : st.finished = true
  · rw [feed_finished hf, feed_finished hf, feed_finished hf]
    exact obsEq_refl st
  · have hf' : st.finished = false := by simpa using hf
    have key : splitLines (st.buffer ++ (a ++ b))
        = ((splitLines (st.buffer ++ a)).1
             ++ (splitLines ((splitLines (st.buffer ++ a)).2 ++ b)).1,
           (splitLines ((splitLines (st.buffer ++ a)).2 ++ b)).2) := by
      rw [← List.append_assoc, splitLines_append (st.buffer ++ a) b]
    by_cases hp : (processLines (splitLines (st.buffer ++ a)).1).2 = true
    · refine ⟨?_, ?_, ?_⟩
      · simp [feed, hf', hp, key, processLines_append]
      · simp [feed, hf', hp, key, processLines_append]
      · intro h
        simp [feed, hf', hp] at h
    · have hp' : (processLines (splitLines (st.buffer ++ a)).1).2 = false := by
        simpa using hp
      refine ⟨?_, ?_, ?_⟩
      · simp [feed, hf', hp', key, processLines_append]
      · simp [feed, hf', hp', key, processLines_append]
      · intro h
        simp [feed, hf', hp', key, processLines_append]

theorem foldl_feed_obsEq : ∀ (chunks : List (List Char)) (st : PSt),
    st.finished = true ∨ '\n' ∉ st.buffer →
    obsEq (chunks.foldl feed st) (feed st (List.flatten chunks)) := by
  intro chunks
  induction chunks with
  | nil =>
    intro st h
    rcases h with h | h
    · rw [List.foldl_nil, List.flatten_nil, feed_finished h]
      exact obsEq_refl st
    · rw [List.foldl_nil, List.flatten_nil]
      by_cases hf : st.finished = true
      · rw [feed_finished hf]; exact obsEq_refl st
      · have hf' : st.finished = false := by simpa using hf
        have e : feed st []
            = ⟨st.buffer, st.events ++ [], false⟩ := by
          simp [feed, hf', splitLines_of_noNL (by simpa using h), processLines]
        rw [e]
        exact ⟨by simp, by simp [hf'], fun _ => rfl⟩
  | cons c cs ih =>
    intro st h
    have hside : (feed st c).finished = true ∨ '\n' ∉ (feed st c).buffer := by
      by_cases hf : st.finished = true
      · left; rw [feed_finished hf]; exact hf
      · have hf' : st.finished = false := by simpa using hf
        by_cases hp : (processLines (splitLines (st.buffer ++ c)).1).2 = true
        · left; simp [feed, hf', hp]
        · right
          have : feed st c
              = ⟨(splitLines (st.buffer ++ c)).2,
                 st.events ++ (processLines (splitLines (st.buffer ++ c)).1).1,
                 (processLines (splitLines (st.buffer ++ c)).1).2⟩ := by
            simp [feed, hf']
          rw [this]
          exact splitLines_snd_noNL (st.buffer ++ c)
    have step := ih (feed st c) hside
    exact obsEq_trans step (feed_append st c (List.flatten cs))

/-- Master characterization: for any chunking, the uncancelled OpenAI
stream delivers exactly the deltas of the complete lines of the joined
input, up to the first `[DONE]` line, followed by exactly one Done. -/
theorem runStream_eq (chunks : List (List Char)) :
    runStream chunks = emitted (splitLines (List.flatten chunks)).1 ++ [Ev.done] := by
  have hobs := foldl_feed_obsEq chunks pInit (Or.inr (by simp [pInit]))
  have hfeed : feed pInit (List.flatten chunks)
      = ⟨(splitLines (List.flatten chunks)).2,
         (processLines (splitLines (List.flatten chunks)).1).1,
         (processLines (splitLines (List.flatten chunks)).1).2⟩ := by
    simp [feed, pInit]
  rw [hfeed] at hobs
  show (if (feedAll chunks).finished then (feedAll chunks).events
        else (feedAll chunks).events ++ [Ev.done]) = _
  rw [show feedAll chunks = chunks.foldl feed pInit from rfl]
  rw [hobs.1, hobs.2.1]
  rw [processLines_eq_emitted]
  by_cases hp : (processLines (splitLines (List.flatten chunks)).1).2 = true
  · simp [hp]
  · simp [hp]

theorem foldl_feed_finished {st : PSt} (h : st.finished = true) :
    ∀ chunks : List (List Char), chunks.foldl feed st = st := by
  intro chunks
  induction chunks with
  | nil => rfl
  | cons c cs ih => rw [List.foldl_cons, feed_finished h, ih]

theorem runStream_done_count (chunks : List (List Char)) :
    (runStream chunks).count Ev.done = 1 := by
  rw [runStream_eq, List.count_append]
  rw [List.count_eq_zero.mpr (done_not_mem_emitted _)]
  rfl

/-- C3: for every byte stream and every partition of it into read
chunks (including splits in the middle of a line), the OpenAI stream
parser produces exactly the same event sequence as when the whole
payload arrives as a single chunk; partial lines are buffered across
reads and parsed only once their newline has arrived. -/
theorem openai_chunking_invariant (chunks : List (List Char)) :
    runStream chunks = runStream [List.flatten chunks] := by
  rw [runStream_eq, runStream_eq]
  simp

/-- C4: once the parser sees a line whose `data:` payload is the literal
`[DONE]`, the completion callback has fired exactly once and no frame is
parsed afterwards, regardless of bytes left in the buffer or chunks
still arriving. -/
theorem openai_done_terminal (chunks extra : List (List Char))
    (hfin : (feedAll chunks).finished = true) :
    runStream (chunks ++ extra) = runStream chunks ∧
      (runStream chunks).count Ev.done = 1 := by
  constructor
  · have h : feedAll (chunks ++ extra) = feedAll chunks := by
      rw [show feedAll (chunks ++ extra) = extra.foldl feed (feedAll chunks) by
            simp [feedAll, List.foldl_append]]
      exact foldl_feed_finished hfin extra
    unfold runStream
    rw [h]
  · exact runStream_done_count chunks

theorem openai_done_terminal_witness :
    (feedAll ["data: [DONE]\ndata: \x7b\"choices\":[\x7b\"delta\":\x7b\"content\":\"late\"\x7d\x7d]\x7d\n".toList]).finished = true ∧
      (runStream (["data: [DONE]\ndata: \x7b\"choices\":[\x7b\"delta\":\x7b\"content\":\"late\"\x7d\x7d]\x7d\n".toList]
            ++ ["data: \x7b\"choices\":[\x7b\"delta\":\x7b\"content\":\"more\"\x7d\x7d]\x7d\n".toList])
          = runStream ["data: [DONE]\ndata: \x7b\"choices\":[\x7b\"delta\":\x7b\"content\":\"late\"\x7d\x7d]\x7d\n".toList] ∧
        (runStream ["data: [DONE]\ndata: \x7b\"choices\":[\x7b\"delta\":\x7b\"content\":\"late\"\x7d\x7d]\x7d\n".toList]).count Ev.done = 1) :=
  ⟨by decide, openai_done_terminal _ _ (by decide)⟩

/-- C7: a line whose `data:` payload is not valid JSON is skipped: the
stream with the malformed line inserted produces exactly the events of
the stream without it, so every well-formed frame after the malformed
one still yields its delta and the malformed frame surfaces neither an
error nor a termination. -/
theorem openai_malformed_skipped (A B : List (List Char)) (l : List Char)
    (hA : (splitLines (List.flatten A)).2 = [])
    (hnl : '\n' ∉ l)
    (hdata : dataHead (trimChars l) = true)
    (hnd : ¬dataPayload (trimChars l) = doneTok)
    (hbad : (jparse (dataPayload (trimChars l))).isNone = true) :
    runStream (A ++ (l ++ ['\n']) :: B) = runStream (A ++ B) := by
  have hskip : openaiLine l = LineOut.skip := by
    simp [openaiLine, hdata, hnd, Option.isNone_iff_eq_none.mp hbad]
  rw [runStream_eq, runStream_eq]
  have h1 : List.flatten (A ++ (l ++ ['\n']) :: B)
      = List.flatten A ++ ((l ++ ['\n']) ++ List.flatten B) := by
    simp
  have h2 : List.flatten (A ++ B) = List.flatten A ++ List.flatten B := by
    simp
  rw [h1, h2, splitLines_append (List.flatten A), splitLines_append (List.flatten A), hA]
  rw [List.nil_append, List.nil_append]
  rw [splitLines_append (l ++ ['\n']), splitLines_noNL_newline hnl]
  simp only [List.nil_append]
  have h3 : (splitLines (List.flatten A)).1 ++ ([l] ++ (splitLines (List.flatten B)).1)
      = (splitLines (List.flatten A)).1 ++ l :: (splitLines (List.flatten B)).1 := by
    simp
  rw [h3, emitted_skip_insert hskip]

theorem openai_malformed_skipped_witness :
    (splitLines (List.flatten [("data: \x7b\"choices\":[\x7b\"delta\":\x7b\"content\":\"ok\"\x7d\x7d]\x7d\n".toList : List Char)])).2 = [] ∧
      '\n' ∉ ("data: \x7bnot json".toList : List Char) ∧
      dataHead (trimChars ("data: \x7bnot json".toList)) = true ∧
      ¬dataPayload (trimChars ("data: \x7bnot json".toList)) = doneTok ∧
      (jparse (dataPayload (trimChars ("data: \x7bnot json".toList)))).isNone = true ∧
      runStream (["data: \x7b\"choices\":[\x7b\"delta\":\x7b\"content\":\"ok\"\x7d\x7d]\x7d\n".toList]
          ++ ("data: \x7bnot json".toList ++ ['\n'])
            :: ["data: \x7b\"choices\":[\x7b\"delta\":\x7b\"content\":\"after\"\x7d\x7d]\x7d\ndata: [DONE]\n".toList])
        = runStream (["data: \x7b\"choices\":[\x7b\"delta\":\x7b\"content\":\"ok\"\x7d\x7d]\x7d\n".toList]
          ++ ["data: \x7b\"choices\":[\x7b\"delta\":\x7b\"content\":\"after\"\x7d\x7d]\x7d\ndata: [DONE]\n".toList]) :=
  ⟨by decide, by decide, by decide, by decide, by decide,
    openai_malformed_skipped _ _ _ (by decide) (by decide) (by decide) (by decide) (by decide)⟩

/-- C10: when the byte stream ends without a `data: [DONE]` frame the
provider still fires the completion callback exactly once, and a final
line not terminated by a newline stays in the buffer and is discarded
unparsed, so a delta carried only in that line is never emitted. -/
theorem openai_eos_discards_partial_line (chunks : List (List Char)) (rest : List Char)
    (hnofin : (feedAll (chunks ++ [rest])).finished = false)
    (hnl : '\n' ∉ rest) :
    runStream (chunks ++ [rest]) = runStream chunks ∧
      (runStream (chunks ++ [rest])).count Ev.done = 1 := by
  refine ⟨?_, runStream_done_count _⟩
  rw [runStream_eq, runStream_eq]
  have h1 : List.flatten (chunks ++ [rest]) = List.flatten chunks ++ rest := by
    simp
  rw [h1, splitLines_append (List.flatten chunks)]
  have hnn : '\n' ∉ (splitLines (List.flatten chunks)).2 ++ rest := by
    intro hmem
    rcases List.mem_append.mp hmem with h | h
    · exact splitLines_snd_noNL _ h
    · exact hnl h
  rw [splitLines_of_noNL hnn]
  simp

theorem openai_eos_discards_partial_line_witness :
    (feedAll (["data: \x7b\"choices\":[\x7b\"delta\":\x7b\"content\":\"seen\"\x7d\x7d]\x7d\n".toList]
        ++ ["data: \x7b\"choices\":[\x7b\"delta\":\x7b\"content\":\"lost\"\x7d\x7d]\x7d".toList])).finished = false ∧
      '\n' ∉ ("data: \x7b\"choices\":[\x7b\"delta\":\x7b\"content\":\"lost\"\x7d\x7d]\x7d".toList : List Char) ∧
      (runStream (["data: \x7b\"choices\":[\x7b\"delta\":\x7b\"content\":\"seen\"\x7d\x7d]\x7d\n".toList]
            ++ ["data: \x7b\"choices\":[\x7b\"delta\":\x7b\"content\":\"lost\"\x7d\x7d]\x7d".toList])
          = runStream ["data: \x7b\"choices\":[\x7b\"delta\":\x7b\"content\":\"seen\"\x7d\x7d]\x7d\n".toList] ∧
        (runStream (["data: \x7b\"choices\":[\x7b\"delta\":\x7b\"content\":\"seen\"\x7d\x7d]\x7d\n".toList]
            ++ ["data: \x7b\"choices\":[\x7b\"delta\":\x7b\"content\":\"lost\"\x7d\x7d]\x7d".toList])).count Ev.done = 1) :=
  ⟨by decide, by decide,
    openai_eos_discards_partial_line _ _ (by decide) (by decide)⟩

/-- C5: the Ollama stream consisting of the frames
`{"message":{"content":"A"}}`, `{"message":{"content":"B"}}`,
`{"done":true}` yields exactly the deltas `"A"` then `"B"` followed by
one Done, and nothing further is emitted after the `done:true` frame
even when more bytes follow in the buffer or in later reads. -/
theorem ollama_three_frame_stream :
    runStreamO ["\x7b\"message\":\x7b\"content\":\"A\"\x7d\x7d\n\x7b\"message\":\x7b\"content\":\"B\"\x7d\x7d\n\x7b\"done\":true\x7d\n".toList]
        = [Ev.delta "A", Ev.delta "B", Ev.done] ∧
      runStreamO ["\x7b\"message\":\x7b\"content\":\"A\"\x7d\x7d\n\x7b\"message\":\x7b\"content\":\"B\"\x7d\x7d\n\x7b\"done\":true\x7d\n\x7b\"message\":\x7b\"content\":\"C\"\x7d\x7d\n".toList,
          "\x7b\"message\":\x7b\"content\":\"D\"\x7d\x7d\n".toList]
        = [Ev.delta "A", Ev.delta "B", Ev.done] := by
  constructor
  · decide
  · decide

/-! ### ChatService orchestration

Embedding of `ChatService` (ChatService.ts:44-242) as a deterministic
labelled transition system.  The environment is single-threaded and
event-driven, so the atomic steps are exactly the synchronous callback
bodies of the source:

* `Act.start now res` — the synchronous prefix of `startStreaming`
  (lines 152-160 and 223): internal `stop()` with no webview, a fresh
  cancellation source, `assistantId = String(Date.now())` where the
  clock is monotone, and registration of the pending provider
  resolution whose eventual outcome is `res`;
* `Act.resolve c` — the `initProvider().then` continuation (165-203):
  on a configuration error it posts `chat:error` then `done:true` and
  conditionally releases the handle (166-175); otherwise it invokes
  `provider.stream`, whose delta/done callbacks it wires to the webview
  (188-203);
* `Act.tick c` — one scheduler tick of a streaming provider.  Every
  provider checks its cancellation token before emitting and a
  cancelled provider ceases without calling `onDone` (MockProvider
  lines 24-29, OpenAIProvider lines 94-102 and 145-149); an uncancelled
  tick delivers the next delta through the orchestrator's unconditional
  forwarding callback (191-193), or, when the script is exhausted,
  `onDone` (194-201);
* `Act.stopCmd hasView` — `ChatService.stop` (230-241), with or
  without a webview reference.

`res` abstracts the provider selection of `initProvider` plus the text
frames the selected provider would go on to deliver. -/

/-- Events posted to the webview sink, `postToWebview` messages tagged
with the assistant id (`chat:error` carries no id). -/
inductive WEvent where
  | errMsg (msg : String) : WEvent
  | respDelta (id : String) (text : String) : WEvent
  | respDone (id : String) : WEvent
deriving DecidableEq

/-- Outcome of the asynchronous `initProvider` resolution: a
configuration error, or a provider whose stream would deliver the given
deltas and then complete. -/
inductive InitRes where
  | fail (msg : String) : InitRes
  | ok (deltas : List String) : InitRes
deriving DecidableEq

/-- Lifecycle phase of one generation. -/
inductive Phase where
  | pending (res : InitRes) : Phase
  | streaming (rest : List String) : Phase
  | halted : Phase
deriving DecidableEq

/-- One generation: its cancellation source identity (`cts`), its
assistant id, and its phase. -/
structure Gen where
  cts : Nat
  aid : String
  phase : Phase
deriving DecidableEq

/-- Orchestrator state: the clock behind `Date.now()`, a counter
allocating cancellation-source identities, the tracked
`currentCancellation`/`currentAssistantId` pair, the set of cancelled
sources, all generations, and the sink log. -/
structure CState where
  clock : Nat
  ctr : Nat
  currentCts : Option Nat
  currentAid : Option String
  cancelled : List Nat
  gens : List Gen
  log : List WEvent
deriving DecidableEq

def initState : CState := ⟨0, 0, none, none, [], [], []⟩

/-- `ChatService.stop` (ChatService.ts:230-241): cancel and release the
tracked source; post `done:true` for the tracked assistant id only when
a webview reference was passed. -/
def stopChat (s : CState) (hasView : Bool) : CState :=
  match s.currentCts with
  | none => s
  | some c =>
    let s1 := { s with cancelled := c :: s.cancelled, currentCts := none }
    match hasView, s.currentAid with
    | true, some a =>
      { s1 with log := s1.log ++ [WEvent.respDone a], currentAid := none }
    | _, _ => { s1 with currentAid := none }

/-- Synchronous prefix of `ChatService.startStreaming`
(ChatService.ts:152-160): `this.stop()` with no webview, a fresh
cancellation source, and `assistantId = String(Date.now())`. -/
def startStreaming (s : CState) (now : Nat) (res : InitRes) : CState :=
  let s1 := stopChat s false
  let clock2 := max s1.clock now
  let aid := decStr clock2
  { s1 with
    clock := clock2
    ctr := s1.ctr + 1
    currentCts := some s1.ctr
    currentAid := some aid
    gens := s1.gens ++ [⟨s1.ctr, aid, Phase.pending res⟩] }

def setPhase (gens : List Gen) (c : Nat) (ph : Phase) : List Gen :=
  gens.map fun g => if g.cts = c then { g with phase := ph } else g

def findGen (gens : List Gen) (c : Nat) : Option Gen :=
  gens.find? fun g => g.cts == c

/-- The `initProvider().then` continuation (ChatService.ts:165-203).
On a configuration error it posts `chat:error` and `done:true` for the
new handle and releases the tracked pair only if it still holds this
generation's source, by identity (166-175); otherwise the provider's
stream begins. -/
def resolveInit (s : CState) (c : Nat) : CState :=
  match findGen s.gens c with
  | none => s
  | some g =>
    match g.phase with
    | Phase.pending (InitRes.fail m) =>
      let s1 := { s with
        log := s.log ++ [WEvent.errMsg m, WEvent.respDone g.aid]
        gens := setPhase s.gens c Phase.halted }
      if s.currentCts = some c
      then { s1 with currentCts := none, currentAid := none }
      else s1
    | Phase.pending (InitRes.ok ds) =>
      { s with gens := setPhase s.gens c (Phase.streaming ds) }
    | _ => s

/-- One provider tick.  A cancelled provider ceases emission without
calling `onDone` (MockProvider lines 24-29, OpenAIProvider lines
94-102); otherwise the next delta is forwarded unconditionally
(ChatService.ts:191-193), or the `onDone` callback posts `done:true`
and conditionally releases the tracked pair (194-201). -/
def provTick (s : CState) (c : Nat) : CState :=
  match findGen s.gens c with
  | none => s
  | some g =>
    match g.phase with
    | Phase.streaming rest =>
      if c ∈ s.cancelled then { s with gens := setPhase s.gens c Phase.halted }
      else
        match rest with
        | d :: rest2 =>
          { s with
            log := s.log ++ [WEvent.respDelta g.aid d]
            gens := setPhase s.gens c (Phase.streaming rest2) }
        | [] =>
          let s1 := { s with
            log := s.log ++ [WEvent.respDone g.aid]
            gens := setPhase s.gens c Phase.halted }
          if s.currentCts = some c
          then { s1 with currentCts := none, currentAid := none }
          else s1
    | _ => s

inductive Act where
  | start (now : Nat) (res : InitRes) : Act
  | stopCmd (hasView : Bool) : Act
  | resolve (c : Nat) : Act
  | tick (c : Nat) : Act
deriving DecidableEq

def applyAct (s : CState) (a : Act) : CState :=
  match a with
  | Act.start now res => startStreaming s now res
  | Act.stopCmd hasView => stopChat s hasView
  | Act.resolve c => resolveInit s c
  | Act.tick c => provTick s c

def runActs (acts : List Act) : CState := acts.foldl applyAct initState

/-- The clock strictly advances at every `start` in the action list
(distinct `Date.now()` readings for successive `startStreaming` calls). -/
def clocksOK : List Act → Nat → Bool
  | [], _ => true
  | Act.start now _ :: rest, cl => decide (cl < now) && clocksOK rest now
  | _ :: rest, cl => clocksOK rest cl

/-- The delta callback `startStreaming` wires into `provider.stream`
(ChatService.ts:191-193): it posts the delta to the webview
unconditionally — it consults neither `this.currentCancellation` nor
`this.currentAssistantId`. -/
def chatOnDelta (s : CState) (aid : String) (d : String) : CState :=
  { s with log := s.log ++ [WEvent.respDelta aid d] }

/-! ### MockProvider reply chunking

`MockProvider.stream` (part_004 lines 16-20) builds a fixed echo reply
and splits it as `reply.split(/(\s+)/)`, keeping the whitespace runs as
separate chunks. -/

def splitWsAux : Nat → List Char → List (List Char)
  | 0, _ => []
  | f + 1, cs =>
    let w := cs.span fun c => ¬c.isWhitespace
    match w.2 with
    | [] => [w.1]
    | _ :: _ =>
      let r := w.2.span Char.isWhitespace
      w.1 :: r.1 :: splitWsAux f r.2

/-- JavaScript `s.split(/(\s+)/)`. -/
def jsSplitKeepWs (cs : List Char) : List (List Char) :=
  splitWsAux (cs.length + 1) cs

/-- The MockProvider reply text (part_004 lines 16-17), including the
`|| 'gpt-4o-mini'` fallback for a falsy model. -/
def mockReply (userText : String) (model : Option String) : String :=
  let m :=
    match model with
    | some m => if m.isEmpty then "gpt-4o-mini" else m
    | none => "gpt-4o-mini"
  "You said: " ++ (trimChars userText.toList).asString
    ++ "\n\n(MOCK PROVIDER: " ++ m ++ ")"

/-- The chunk list the MockProvider would emit, one chunk per tick. -/
def mockChunks (userText : String) (model : Option String) : List String :=
  (jsSplitKeepWs (mockReply userText model).toList).map List.asString

/-! ### OpenAI credential resolution

`ChatService.initProvider` for the `openai` provider id
(ChatService.ts:95-123): secret-store lookups in order, then the
`OPENAI_API_KEY` environment variable; a missing (falsy) key selects
the mock provider and returns a configuration error, and the stream is
never opened. -/

/-- JavaScript falsiness of an optional string key (`!key`). -/
def keyFalsy : Option String → Bool
  | none => true
  | some s => s.isEmpty

/-- The lookup cascade of ChatService.ts:97-109. -/
def resolveOpenAIKey (secrets : String → Option String)
    (envKey : Option String) : Option String :=
  let k1 := secrets "teCopilo.openai.apiKey"
  let k2 := if keyFalsy k1 then secrets "teCopilot.openai.apiKey" else k1
  let k3 := if keyFalsy k2 then secrets "kaviaChat.openai.apiKey" else k2
  let k4 := if keyFalsy k3 then envKey else k3
  if keyFalsy k4 then none else k4

def openaiKeyErrMsg : String :=
  "OpenAI API key is not set. Run \"TE-Copilo: Set OpenAI API Key\" or set OPENAI_API_KEY env var."

/-- Outcome of `initProvider` with the OpenAI-compatible provider
selected (ChatService.ts:110-113): a missing credential yields the
configuration error; otherwise the provider is constructed and its
stream would deliver `netDeltas`. -/
def initProviderOpenAI (secrets : String → Option String)
    (envKey : Option String) (netDeltas : List String) : InitRes :=
  match resolveOpenAIKey secrets envKey with
  | none => InitRes.fail openaiKeyErrMsg
  | some _ => InitRes.ok netDeltas

/-! ### Sink-log predicates -/

/-- Some `chat:response` delta tagged `a` occurs in the log. -/
def hasDeltaFor (a : String) (l : List WEvent) : Bool :=
  l.any fun e =>
    match e with
    | WEvent.respDelta b _ => a == b
    | _ => false

/-- Some `chat:response` done tagged `a` occurs in the log. -/
def hasDoneFor (a : String) (l : List WEvent) : Bool :=
  l.any fun e =>
    match e with
    | WEvent.respDone b => a == b
    | _ => false

/-- No delta tagged `a` ever follows a done tagged `a`. -/
def orderOKb : List WEvent → Bool
  | [] => true
  | WEvent.respDone a :: rest => !hasDeltaFor a rest && orderOKb rest
  | _ :: rest => orderOKb rest

theorem hasDeltaFor_append (a : String) (l1 l2 : List WEvent) :
    hasDeltaFor a (l1 ++ l2) = (hasDeltaFor a l1 || hasDeltaFor a l2) := by
  simp [hasDeltaFor]

theorem hasDoneFor_append (a : String) (l1 l2 : List WEvent) :
    hasDoneFor a (l1 ++ l2) = (hasDoneFor a l1 || hasDoneFor a l2) := by
  simp [hasDoneFor]

theorem hasDeltaFor_err (a m : String) : hasDeltaFor a [WEvent.errMsg m] = false := rfl

theorem hasDeltaFor_done (a b : String) : hasDeltaFor a [WEvent.respDone b] = false := rfl

theorem hasDeltaFor_delta (a b d : String) :
    hasDeltaFor a [WEvent.respDelta b d] = (a == b) := by
  simp [hasDeltaFor]

theorem hasDoneFor_err (a m : String) : hasDoneFor a [WEvent.errMsg m] = false := rfl

theorem hasDoneFor_delta (a b d : String) :
    hasDoneFor a [WEvent.respDelta b d] = false := rfl

theorem hasDoneFor_done (a b : String) :
    hasDoneFor a [WEvent.respDone b] = (a == b) := by
  simp [hasDoneFor]

theorem orderOKb_err (m : String) : orderOKb [WEvent.errMsg m] = true := rfl

theorem orderOKb_delta (a d : String) : orderOKb [WEvent.respDelta a d] = true := rfl

theorem orderOKb_done (a : String) : orderOKb [WEvent.respDone a] = true := rfl

theorem orderOKb_err_done (m a : String) :
    orderOKb [WEvent.errMsg m, WEvent.respDone a] = true := rfl

theorem orderOKb_append : ∀ l l2 : List WEvent, orderOKb l = true → orderOKb l2 = true →
    (∀ a, hasDoneFor a l = true → hasDeltaFor a l2 = false) →
    orderOKb (l ++ l2) = true := by
  intro l
  induction l with
  | nil => intro l2 _ h2 _; simpa using h2
  | cons e rest ih =>
    intro l2 h1 h2 hc
    match e with
    | WEvent.errMsg m =>
      simp only [orderOKb, List.cons_append] at h1 ⊢
      refine ih l2 h1 h2 fun a ha => hc a ?_
      simpa [hasDoneFor] using ha
    | WEvent.respDelta b d =>
      simp only [orderOKb, List.cons_append] at h1 ⊢
      refine ih l2 h1 h2 fun a ha => hc a ?_
      simpa [hasDoneFor] using ha
    | WEvent.respDone a' =>
      simp only [orderOKb, List.cons_append, Bool.and_eq_true, Bool.not_eq_true'] at h1 ⊢
      constructor
      · show hasDeltaFor a' (rest ++ l2) = false
        rw [hasDeltaFor_append, h1.1, Bool.false_or]
        exact hc a' (by simp [hasDoneFor])
      · refine ih l2 h1.2 h2 fun a ha => hc a ?_
        rw [show (WEvent.respDone a' :: rest) = [WEvent.respDone a'] ++ rest from rfl,
          hasDoneFor_append, ha, Bool.or_true]

/-! ### Generation-list lemmas -/

theorem setPhase_map_cts (gens : List Gen) (c : Nat) (ph : Phase) :
    (setPhase gens c ph).map Gen.cts = gens.map Gen.cts := by
  unfold setPhase
  rw [List.map_map]
  apply List.map_congr_left
  intro g _
  by_cases h : g.cts = c <;> simp [h]

theorem setPhase_map_aid (gens : List Gen) (c : Nat) (ph : Phase) :
    (setPhase gens c ph).map Gen.aid = gens.map Gen.aid := by
  unfold setPhase
  rw [List.map_map]
  apply List.map_congr_left
  intro g _
  by_cases h : g.cts = c <;> simp [h]

theorem mem_setPhase {h : Gen} {gens : List Gen} {c : Nat} {ph : Phase}
    (hm : h ∈ setPhase gens c ph) :
    ∃ g, g ∈ gens ∧ h = (if g.cts = c then { g with phase := ph } else g) := by
  rcases List.mem_map.mp hm with ⟨g, hg, he⟩
  exact ⟨g, hg, he.symm⟩

theorem mem_setPhase_of_mem {g : Gen} {gens : List Gen} (hg : g ∈ gens) (c : Nat) (ph : Phase) :
    (if g.cts = c then { g with phase := ph } else g) ∈ setPhase gens c ph :=
  List.mem_map_of_mem _ hg

theorem findGen_mem {gens : List Gen} {c : Nat} {g : Gen} (h : findGen gens c = some g) :
    g ∈ gens :=
  List.mem_of_find?_eq_some h

theorem findGen_cts {gens : List Gen} {c : Nat} {g : Gen} (h : findGen gens c = some g) :
    g.cts = c := by
  have := List.find?_some h
  simpa using this

theorem eq_of_cts_eq {gens : List Gen} (hB : (gens.map Gen.cts).Nodup)
    {g h : Gen} (hg : g ∈ gens) (hh : h ∈ gens) (he : g.cts = h.cts) : g = h :=
  List.inj_on_of_nodup_map hB hg hh he

theorem aid_ne_of_ne {gens : List Gen} (hD : (gens.map Gen.aid).Nodup)
    {g h : Gen} (hg : g ∈ gens) (hh : h ∈ gens) (hne : g ≠ h) : g.aid ≠ h.aid :=
  fun he => hne (List.inj_on_of_nodup_map hD hg hh he)

/-! ### The orchestrator invariant -/

/-- Inductive invariant of the `ChatService` transition system. -/
structure Inv (s : CState) : Prop where
  hctr : ∀ g ∈ s.gens, g.cts < s.ctr
  hcts : (s.gens.map Gen.cts).Nodup
  haid : ∀ g ∈ s.gens, ∃ n, n ≤ s.clock ∧ g.aid = decStr n
  haids : (s.gens.map Gen.aid).Nodup
  hcurNone : s.currentCts = none → s.currentAid = none
  hcurSome : ∀ c, s.currentCts = some c →
    s.currentAid = some (decStr s.clock) ∧
      ∃ g, g ∈ s.gens ∧ g.cts = c ∧ g.aid = decStr s.clock
  hlive : ∀ g ∈ s.gens, ¬g.phase = Phase.halted → g.cts ∉ s.cancelled →
    s.currentCts = some g.cts
  hfresh : ∀ g ∈ s.gens, ¬g.phase = Phase.halted → g.cts ∉ s.cancelled →
    hasDoneFor g.aid s.log = false
  hprov : ∀ a, hasDoneFor a s.log = true ∨ hasDeltaFor a s.log = true →
    ∃ g, g ∈ s.gens ∧ g.aid = a
  hord : orderOKb s.log = true

theorem inv_initState : Inv initState := by
  constructor <;> intros <;> simp_all [initState, hasDoneFor, hasDeltaFor, orderOKb]

/-! ### Invariant preservation -/

theorem stopChat_none (s : CState) (hv : Bool) (h : s.currentCts = none) :
    stopChat s hv = s := by
  simp [stopChat, h]

theorem stopChat_some_true {s : CState} {c : Nat} {a : String}
    (h : s.currentCts = some c) (ha : s.currentAid = some a) :
    stopChat s true
      = { s with
          cancelled := c :: s.cancelled
          currentCts := none
          currentAid := none
          log := s.log ++ [WEvent.respDone a] } := by
  simp [stopChat, h, ha]

theorem stopChat_some_false {s : CState} {c : Nat} (h : s.currentCts = some c) :
    stopChat s false
      = { s with
          cancelled := c :: s.cancelled
          currentCts := none
          currentAid := none } := by
  simp [stopChat, h]

theorem inv_stop (s : CState) (hI : Inv s) (hv : Bool) : Inv (stopChat s hv) := by
  cases hc : s.currentCts with
  | none => rw [stopChat_none s hv hc]; exact hI
  | some c =>
    obtain ⟨ha, g0, hg0mem, hg0cts, hg0aid⟩ := hI.hcurSome c hc
    have hall : ∀ g ∈ s.gens, ¬g.phase = Phase.halted → g.cts ∈ c :: s.cancelled := by
      intro g hg hph
      by_cases hcanc : g.cts ∈ s.cancelled
      · exact List.mem_cons_of_mem _ hcanc
      · have h2 := hI.hlive g hg hph hcanc
        rw [hc] at h2
        injection h2 with h3
        rw [h3]
        exact List.mem_cons_self _ _
    cases hv with
    | false =>
      rw [stopChat_some_false hc]
      constructor
      · exact hI.hctr
      · exact hI.hcts
      · exact hI.haid
      · exact hI.haids
      · intro _; rfl
      · intro c' h'; cases h'
      · intro g hg hph hnc
        exact absurd (hall g hg hph) hnc
      · intro g hg hph hnc
        exact absurd (hall g hg hph) hnc
      · exact hI.hprov
      · exact hI.hord
    | true =>
      rw [stopChat_some_true hc ha]
      constructor
      · exact hI.hctr
      · exact hI.hcts
      · exact hI.haid
      · exact hI.haids
      · intro _; rfl
      · intro c' h'; cases h'
      · intro g hg hph hnc
        exact absurd (hall g hg hph) hnc
      · intro g hg hph hnc
        exact absurd (hall g hg hph) hnc
      · intro a' hdisj
        rcases hdisj with hd | hd
        · have hd' : hasDoneFor a' (s.log ++ [WEvent.respDone (decStr s.clock)]) = true := hd
          rw [hasDoneFor_append] at hd'
          simp only [Bool.or_eq_true] at hd'
          rcases hd' with h | h
          · exact hI.hprov a' (Or.inl h)
          · rw [hasDoneFor_done] at h
            exact ⟨g0, hg0mem, hg0aid.trans (eq_of_beq h).symm⟩
        · have hd' : hasDeltaFor a' (s.log ++ [WEvent.respDone (decStr s.clock)]) = true := hd
          rw [hasDeltaFor_append] at hd'
          simp only [Bool.or_eq_true] at hd'
          rcases hd' with h | h
          · exact hI.hprov a' (Or.inr h)
          · rw [hasDeltaFor_done] at h
            cases h
      · refine orderOKb_append _ _ hI.hord (orderOKb_done _) fun a' _ => ?_
        exact hasDeltaFor_done a' _

theorem mem_setPhase_cases {h : Gen} {gens : List Gen} {c : Nat} {ph : Phase}
    (hm : h ∈ setPhase gens c ph) :
    ∃ g0, g0 ∈ gens ∧ h.cts = g0.cts ∧ h.aid = g0.aid ∧
      ((g0.cts = c ∧ h.phase = ph) ∨ (¬g0.cts = c ∧ h = g0)) := by
  rcases mem_setPhase hm with ⟨g0, hg0, he⟩
  by_cases hc : g0.cts = c
  · rw [he, if_pos hc]
    exact ⟨g0, hg0, rfl, rfl, Or.inl ⟨hc, rfl⟩⟩
  · rw [he, if_neg hc]
    exact ⟨g0, hg0, rfl, rfl, Or.inr ⟨hc, rfl⟩⟩

theorem resolveInit_none {s : CState} {c : Nat} (hf : findGen s.gens c = none) :
    resolveInit s c = s := by
  simp [resolveInit, hf]

theorem resolveInit_fail_cur {s : CState} {c : Nat} {g : Gen} {m : String}
    (hf : findGen s.gens c = some g) (hph : g.phase = Phase.pending (InitRes.fail m))
    (hcc : s.currentCts = some c) :
    resolveInit s c
      = { s with
          log := s.log ++ [WEvent.errMsg m, WEvent.respDone g.aid]
          gens := setPhase s.gens c Phase.halted
          currentCts := none
          currentAid := none } := by
  simp [resolveInit, hf, hph, hcc]

theorem resolveInit_fail_other {s : CState} {c : Nat} {g : Gen} {m : String}
    (hf : findGen s.gens c = some g) (hph : g.phase = Phase.pending (InitRes.fail m))
    (hcc : ¬s.currentCts = some c) :
    resolveInit s c
      = { s with
          log := s.log ++ [WEvent.errMsg m, WEvent.respDone g.aid]
          gens := setPhase s.gens c Phase.halted } := by
  simp [resolveInit, hf, hph, hcc]

theorem resolveInit_ok {s : CState} {c : Nat} {g : Gen} {ds : List String}
    (hf : findGen s.gens c = some g) (hph : g.phase = Phase.pending (InitRes.ok ds)) :
    resolveInit s c = { s with gens := setPhase s.gens c (Phase.streaming ds) } := by
  simp [resolveInit, hf, hph]

theorem resolveInit_streaming {s : CState} {c : Nat} {g : Gen} {rest : List String}
    (hf : findGen s.gens c = some g) (hph : g.phase = Phase.streaming rest) :
    resolveInit s c = s := by
  simp [resolveInit, hf, hph]

theorem resolveInit_halted {s : CState} {c : Nat} {g : Gen}
    (hf : findGen s.gens c = some g) (hph : g.phase = Phase.halted) :
    resolveInit s c = s := by
  simp [resolveInit, hf, hph]

theorem provTick_none {s : CState} {c : Nat} (hf : findGen s.gens c = none) :
    provTick s c = s := by
  simp [provTick, hf]

theorem provTick_cancelled {s : CState} {c : Nat} {g : Gen} {rest : List String}
    (hf : findGen s.gens c = some g) (hph : g.phase = Phase.streaming rest)
    (hcanc : c ∈ s.cancelled) :
    provTick s c = { s with gens := setPhase s.gens c Phase.halted } := by
  simp [provTick, hf, hph, hcanc]

theorem provTick_delta {s : CState} {c : Nat} {g : Gen} {d : String} {rest2 : List String}
    (hf : findGen s.gens c = some g) (hph : g.phase = Phase.streaming (d :: rest2))
    (hcanc : c ∉ s.cancelled) :
    provTick s c
      = { s with
          log := s.log ++ [WEvent.respDelta g.aid d]
          gens := setPhase s.gens c (Phase.streaming rest2) } := by
  simp [provTick, hf, hph, hcanc]

theorem provTick_done_cur {s : CState} {c : Nat} {g : Gen}
    (hf : findGen s.gens c = some g) (hph : g.phase = Phase.streaming [])
    (hcanc : c ∉ s.cancelled) (hcc : s.currentCts = some c) :
    provTick s c
      = { s with
          log := s.log ++ [WEvent.respDone g.aid]
          gens := setPhase s.gens c Phase.halted
          currentCts := none
          currentAid := none } := by
  simp [provTick, hf, hph, hcanc, hcc]

theorem provTick_done_other {s : CState} {c : Nat} {g : Gen}
    (hf : findGen s.gens c = some g) (hph : g.phase = Phase.streaming [])
    (hcanc : c ∉ s.cancelled) (hcc : ¬s.currentCts = some c) :
    provTick s c
      = { s with
          log := s.log ++ [WEvent.respDone g.aid]
          gens := setPhase s.gens c Phase.halted } := by
  simp [provTick, hf, hph, hcanc, hcc]

theorem provTick_pending {s : CState} {c : Nat} {g : Gen} {res : InitRes}
    (hf : findGen s.gens c = some g) (hph : g.phase = Phase.pending res) :
    provTick s c = s := by
  simp [provTick, hf, hph]

theorem provTick_halted {s : CState} {c : Nat} {g : Gen}
    (hf : findGen s.gens c = some g) (hph : g.phase = Phase.halted) :
    provTick s c = s := by
  simp [provTick, hf, hph]

theorem setPhase_entry_cts (g : Gen) (c : Nat) (ph : Phase) :
    (if g.cts = c then { g with phase := ph } else g).cts = g.cts := by
  by_cases h : g.cts = c <;> simp [h]

theorem setPhase_entry_aid (g : Gen) (c : Nat) (ph : Phase) :
    (if g.cts = c then { g with phase := ph } else g).aid = g.aid := by
  by_cases h : g.cts = c <;> simp [h]

theorem aid_witness_setPhase {gens : List Gen} {c : Nat} {ph : Phase} {a : String}
    (h : ∃ g, g ∈ gens ∧ g.aid = a) :
    ∃ h2, h2 ∈ setPhase gens c ph ∧ h2.aid = a := by
  rcases h with ⟨g, hg, ha⟩
  refine ⟨_, mem_setPhase_of_mem hg c ph, ?_⟩
  by_cases hc : g.cts = c <;> simp [hc, ha]

theorem inv_resolve (s : CState) (hI : Inv s) (c : Nat) : Inv (resolveInit s c) := by
  cases hf : findGen s.gens c with
  | none => rw [resolveInit_none hf]; exact hI
  | some g =>
    have hgmem : g ∈ s.gens := findGen_mem hf
    have hgc : g.cts = c := findGen_cts hf
    cases hph : g.phase with
    | halted => rw [resolveInit_halted hf hph]; exact hI
    | streaming rest => rw [resolveInit_streaming hf hph]; exact hI
    | pending res =>
      have hlivg : ¬g.phase = Phase.halted := by rw [hph]; intro h; cases h
      cases res with
      | ok ds =>
        rw [resolveInit_ok hf hph]
        constructor
        · intro h hm
          rcases mem_setPhase_cases hm with ⟨g0, hg0, hcts0, _, _⟩
          show h.cts < s.ctr
          rw [hcts0]
          exact hI.hctr g0 hg0
        · show ((setPhase s.gens c (Phase.streaming ds)).map Gen.cts).Nodup
          rw [setPhase_map_cts]; exact hI.hcts
        · intro h hm
          rcases mem_setPhase_cases hm with ⟨g0, hg0, _, haid0, _⟩
          rcases hI.haid g0 hg0 with ⟨n, hn, he⟩
          exact ⟨n, hn, by rw [haid0, he]⟩
        · show ((setPhase s.gens c (Phase.streaming ds)).map Gen.aid).Nodup
          rw [setPhase_map_aid]; exact hI.haids
        · exact hI.hcurNone
        · intro c' hcc'
          rcases hI.hcurSome c' hcc' with ⟨ha, g2, hg2, hg2c, hg2a⟩
          refine ⟨ha, ?_⟩
          show ∃ h2, h2 ∈ setPhase s.gens c (Phase.streaming ds) ∧
            h2.cts = c' ∧ h2.aid = decStr s.clock
          exact ⟨_, mem_setPhase_of_mem hg2 c (Phase.streaming ds),
            (setPhase_entry_cts g2 c _).trans hg2c,
            (setPhase_entry_aid g2 c _).trans hg2a⟩
        · intro h hm hph2 hnc
          rcases mem_setPhase_cases hm with ⟨g0, hg0, hcts0, _, hdisj⟩
          have hnc' : g0.cts ∉ s.cancelled := by rw [← hcts0]; exact hnc
          show s.currentCts = some h.cts
          rw [hcts0]
          rcases hdisj with ⟨hg0c, _⟩ | ⟨_, heq⟩
          · have hg0g : g0 = g := eq_of_cts_eq hI.hcts hg0 hgmem (by rw [hg0c, hgc])
            exact hI.hlive g0 hg0 (by rw [hg0g]; exact hlivg) hnc'
          · exact hI.hlive g0 hg0 (by rw [← heq]; exact hph2) hnc'
        · intro h hm hph2 hnc
          rcases mem_setPhase_cases hm with ⟨g0, hg0, hcts0, haid0, hdisj⟩
          have hnc' : g0.cts ∉ s.cancelled := by rw [← hcts0]; exact hnc
          show hasDoneFor h.aid s.log = false
          rw [haid0]
          rcases hdisj with ⟨hg0c, _⟩ | ⟨_, heq⟩
          · have hg0g : g0 = g := eq_of_cts_eq hI.hcts hg0 hgmem (by rw [hg0c, hgc])
            exact hI.hfresh g0 hg0 (by rw [hg0g]; exact hlivg) hnc'
          · exact hI.hfresh g0 hg0 (by rw [← heq]; exact hph2) hnc'
        · intro a' hdisj
          exact aid_witness_setPhase (hI.hprov a' hdisj)
        · exact hI.hord
      | fail m =>
        have hcore : ∀ s' : CState, s'.gens = setPhase s.gens c Phase.halted →
            s'.log = s.log ++ [WEvent.errMsg m, WEvent.respDone g.aid] →
            s'.ctr = s.ctr → s'.clock = s.clock → s'.cancelled = s.cancelled →
            (s'.currentCts = none ∧ s'.currentAid = none ∧ s.currentCts = some c ∨
              s'.currentCts = s.currentCts ∧ s'.currentAid = s.currentAid ∧
                ¬s.currentCts = some c) →
            Inv s' := by
          intro s' hg' hl' hctr' hck' hcanc' hcur'
          constructor
          · intro h hm
            rw [hg'] at hm
            rcases mem_setPhase_cases hm with ⟨g0, hg0, hcts0, _, _⟩
            rw [hctr', hcts0]
            exact hI.hctr g0 hg0
          · rw [hg', setPhase_map_cts]; exact hI.hcts
          · intro h hm
            rw [hg'] at hm
            rcases mem_setPhase_cases hm with ⟨g0, hg0, _, haid0, _⟩
            rcases hI.haid g0 hg0 with ⟨n, hn, he⟩
            exact ⟨n, by rw [hck']; exact hn, by rw [haid0, he]⟩
          · rw [hg', setPhase_map_aid]; exact hI.haids
          · rcases hcur' with ⟨h1, h2, _⟩ | ⟨h1, h2, _⟩
            · intro _; exact h2
            · rw [h1, h2]; exact hI.hcurNone
          · rcases hcur' with ⟨h1, h2, _⟩ | ⟨h1, h2, _⟩
            · intro c' hcc'; rw [h1] at hcc'; cases hcc'
            · intro c' hcc'
              rw [h1] at hcc'
              rcases hI.hcurSome c' hcc' with ⟨ha, g2, hg2, hg2c, hg2a⟩
              refine ⟨by rw [h2, hck']; exact ha, ?_⟩
              rw [hg', hck']
              exact ⟨_, mem_setPhase_of_mem hg2 c Phase.halted,
                (setPhase_entry_cts g2 c _).trans hg2c,
                (setPhase_entry_aid g2 c _).trans hg2a⟩
          · intro h hm hph2 hnc
            rw [hg'] at hm
            rw [hcanc'] at hnc
            rcases mem_setPhase_cases hm with ⟨g0, hg0, hcts0, _, hdisj⟩
            have hnc' : g0.cts ∉ s.cancelled := by rw [← hcts0]; exact hnc
            rcases hdisj with ⟨_, hphset⟩ | ⟨hg0c, heq⟩
            · exact absurd hphset hph2
            · have hcur : s.currentCts = some g0.cts :=
                hI.hlive g0 hg0 (by rw [← heq]; exact hph2) hnc'
              rcases hcur' with ⟨h1, _, h4⟩ | ⟨h1, _, h3⟩
              · exfalso
                rw [hcur] at h4
                injection h4 with h5
                exact hg0c h5
              · rw [h1, hcur, hcts0]
          · intro h hm hph2 hnc
            rw [hg'] at hm
            rw [hcanc'] at hnc
            rw [hl']
            rcases mem_setPhase_cases hm with ⟨g0, hg0, hcts0, haid0, hdisj⟩
            have hnc' : g0.cts ∉ s.cancelled := by rw [← hcts0]; exact hnc
            rcases hdisj with ⟨_, hphset⟩ | ⟨hg0c, heq⟩
            · exact absurd hphset hph2
            · have h1 : hasDoneFor g0.aid s.log = false :=
                hI.hfresh g0 hg0 (by rw [← heq]; exact hph2) hnc'
              have hne : g0 ≠ g := fun he => hg0c (by rw [he, hgc])
              have hane : g0.aid ≠ g.aid := aid_ne_of_ne hI.haids hg0 hgmem hne
              rw [haid0, hasDoneFor_append, h1, Bool.false_or]
              rw [show [WEvent.errMsg m, WEvent.respDone g.aid]
                  = [WEvent.errMsg m] ++ [WEvent.respDone g.aid] from rfl,
                hasDoneFor_append, hasDoneFor_err, hasDoneFor_done, Bool.false_or]
              exact beq_eq_false_iff_ne.mpr hane
          · intro a' hdisj
            rw [hl'] at hdisj
            rw [hg']
            rcases hdisj with hd | hd
            · rw [hasDoneFor_append] at hd
              simp only [Bool.or_eq_true] at hd
              rcases hd with h2 | h2
              · exact aid_witness_setPhase (hI.hprov a' (Or.inl h2))
              · rw [show [WEvent.errMsg m, WEvent.respDone g.aid]
                    = [WEvent.errMsg m] ++ [WEvent.respDone g.aid] from rfl,
                  hasDoneFor_append, hasDoneFor_err, hasDoneFor_done, Bool.false_or] at h2
                exact aid_witness_setPhase ⟨g, hgmem, (eq_of_beq h2).symm⟩
            · rw [hasDeltaFor_append] at hd
              simp only [Bool.or_eq_true] at hd
              rcases hd with h2 | h2
              · exact aid_witness_setPhase (hI.hprov a' (Or.inr h2))
              · rw [show [WEvent.errMsg m, WEvent.respDone g.aid]
                    = [WEvent.errMsg m] ++ [WEvent.respDone g.aid] from rfl,
                  hasDeltaFor_append, hasDeltaFor_err, hasDeltaFor_done] at h2
                cases h2
          · rw [hl']
            exact orderOKb_append _ _ hI.hord (orderOKb_err_done m g.aid) fun a' _ => rfl
        by_cases hcc : s.currentCts = some c
        · rw [resolveInit_fail_cur hf hph hcc]
          exact hcore _ rfl rfl rfl rfl rfl (Or.inl ⟨rfl, rfl, hcc⟩)
        · rw [resolveInit_fail_other hf hph hcc]
          exact hcore _ rfl rfl rfl rfl rfl (Or.inr ⟨rfl, rfl, hcc⟩)

theorem inv_tick (s : CState) (hI : Inv s) (c : Nat) : Inv (provTick s c) := by
  cases hf : findGen s.gens c with
  | none => rw [provTick_none hf]; exact hI
  | some g =>
    have hgmem : g ∈ s.gens := findGen_mem hf
    have hgc : g.cts = c := findGen_cts hf
    cases hph : g.phase with
    | halted => rw [provTick_halted hf hph]; exact hI
    | pending res => rw [provTick_pending hf hph]; exact hI
    | streaming rest =>
      have hlivg : ¬g.phase = Phase.halted := by rw [hph]; intro h; cases h
      by_cases hcanc : c ∈ s.cancelled
      · rw [provTick_cancelled hf hph hcanc]
        constructor
        · intro h hm
          rcases mem_setPhase_cases hm with ⟨g0, hg0, hcts0, _, _⟩
          show h.cts < s.ctr
          rw [hcts0]
          exact hI.hctr g0 hg0
        · show ((setPhase s.gens c Phase.halted).map Gen.cts).Nodup
          rw [setPhase_map_cts]; exact hI.hcts
        · intro h hm
          rcases mem_setPhase_cases hm with ⟨g0, hg0, _, haid0, _⟩
          rcases hI.haid g0 hg0 with ⟨n, hn, he⟩
          exact ⟨n, hn, by rw [haid0, he]⟩
        · show ((setPhase s.gens c Phase.halted).map Gen.aid).Nodup
          rw [setPhase_map_aid]; exact hI.haids
        · exact hI.hcurNone
        · intro c' hcc'
          rcases hI.hcurSome c' hcc' with ⟨ha, g2, hg2, hg2c, hg2a⟩
          refine ⟨ha, ?_⟩
          show ∃ h2, h2 ∈ setPhase s.gens c Phase.halted ∧
            h2.cts = c' ∧ h2.aid = decStr s.clock
          exact ⟨_, mem_setPhase_of_mem hg2 c Phase.halted,
            (setPhase_entry_cts g2 c _).trans hg2c,
            (setPhase_entry_aid g2 c _).trans hg2a⟩
        · intro h hm hph2 hnc
          rcases mem_setPhase_cases hm with ⟨g0, hg0, hcts0, _, hdisj⟩
          have hnc' : g0.cts ∉ s.cancelled := by rw [← hcts0]; exact hnc
          show s.currentCts = some h.cts
          rw [hcts0]
          rcases hdisj with ⟨_, hphset⟩ | ⟨_, heq⟩
          · exact absurd hphset hph2
          · exact hI.hlive g0 hg0 (by rw [← heq]; exact hph2) hnc'
        · intro h hm hph2 hnc
          rcases mem_setPhase_cases hm with ⟨g0, hg0, hcts0, haid0, hdisj⟩
          have hnc' : g0.cts ∉ s.cancelled := by rw [← hcts0]; exact hnc
          show hasDoneFor h.aid s.log = false
          rw [haid0]
          rcases hdisj with ⟨_, hphset⟩ | ⟨_, heq⟩
          · exact absurd hphset hph2
          · exact hI.hfresh g0 hg0 (by rw [← heq]; exact hph2) hnc'
        · intro a' hdisj
          exact aid_witness_setPhase (hI.hprov a' hdisj)
        · exact hI.hord
      · have hfreshg : hasDoneFor g.aid s.log = false := hI.hfresh g hgmem hlivg (hgc ▸ hcanc)
        cases rest with
        | cons d rest2 =>
          rw [provTick_delta hf hph hcanc]
          constructor
          · intro h hm
            rcases mem_setPhase_cases hm with ⟨g0, hg0, hcts0, _, _⟩
            show h.cts < s.ctr
            rw [hcts0]
            exact hI.hctr g0 hg0
          · show ((setPhase s.gens c (Phase.streaming rest2)).map Gen.cts).Nodup
            rw [setPhase_map_cts]; exact hI.hcts
          · intro h hm
            rcases mem_setPhase_cases hm with ⟨g0, hg0, _, haid0, _⟩
            rcases hI.haid g0 hg0 with ⟨n, hn, he⟩
            exact ⟨n, hn, by rw [haid0, he]⟩
          · show ((setPhase s.gens c (Phase.streaming rest2)).map Gen.aid).Nodup
            rw [setPhase_map_aid]; exact hI.haids
          · exact hI.hcurNone
          · intro c' hcc'
            rcases hI.hcurSome c' hcc' with ⟨ha, g2, hg2, hg2c, hg2a⟩
            refine ⟨ha, ?_⟩
            show ∃ h2, h2 ∈ setPhase s.gens c (Phase.streaming rest2) ∧
              h2.cts = c' ∧ h2.aid = decStr s.clock
            exact ⟨_, mem_setPhase_of_mem hg2 c (Phase.streaming rest2),
              (setPhase_entry_cts g2 c _).trans hg2c,
              (setPhase_entry_aid g2 c _).trans hg2a⟩
          · intro h hm hph2 hnc
            rcases mem_setPhase_cases hm with ⟨g0, hg0, hcts0, _, hdisj⟩
            have hnc' : g0.cts ∉ s.cancelled := by rw [← hcts0]; exact hnc
            show s.currentCts = some h.cts
            rw [hcts0]
            rcases hdisj with ⟨hg0c, _⟩ | ⟨_, heq⟩
            · have hg0g : g0 = g := eq_of_cts_eq hI.hcts hg0 hgmem (by rw [hg0c, hgc])
              exact hI.hlive g0 hg0 (by rw [hg0g]; exact hlivg) hnc'
            · exact hI.hlive g0 hg0 (by rw [← heq]; exact hph2) hnc'
          · intro h hm hph2 hnc
            rcases mem_setPhase_cases hm with ⟨g0, hg0, hcts0, haid0, hdisj⟩
            have hnc' : g0.cts ∉ s.cancelled := by rw [← hcts0]; exact hnc
            have hfr : hasDoneFor g0.aid s.log = false := by
              rcases hdisj with ⟨hg0c, _⟩ | ⟨_, heq⟩
              · have hg0g : g0 = g := eq_of_cts_eq hI.hcts hg0 hgmem (by rw [hg0c, hgc])
                exact hI.hfresh g0 hg0 (by rw [hg0g]; exact hlivg) hnc'
              · exact hI.hfresh g0 hg0 (by rw [← heq]; exact hph2) hnc'
            show hasDoneFor h.aid (s.log ++ [WEvent.respDelta g.aid d]) = false
            rw [haid0, hasDoneFor_append, hfr, Bool.false_or]
            exact hasDoneFor_delta g0.aid g.aid d
          · intro a' hdisj
            rcases hdisj with hd | hd
            · have hd' : hasDoneFor a' (s.log ++ [WEvent.respDelta g.aid d]) = true := hd
              rw [hasDoneFor_append, hasDoneFor_delta, Bool.or_false] at hd'
              exact aid_witness_setPhase (hI.hprov a' (Or.inl hd'))
            · have hd' : hasDeltaFor a' (s.log ++ [WEvent.respDelta g.aid d]) = true := hd
              rw [hasDeltaFor_append] at hd'
              simp only [Bool.or_eq_true] at hd'
              rcases hd' with h2 | h2
              · exact aid_witness_setPhase (hI.hprov a' (Or.inr h2))
              · rw [hasDeltaFor_delta] at h2
                exact aid_witness_setPhase ⟨g, hgmem, (eq_of_beq h2).symm⟩
          · show orderOKb (s.log ++ [WEvent.respDelta g.aid d]) = true
            refine orderOKb_append _ _ hI.hord (orderOKb_delta g.aid d) fun a' ha' => ?_
            rw [hasDeltaFor_delta]
            cases hbe : a' == g.aid with
            | false => rfl
            | true =>
              exfalso
              rw [eq_of_beq hbe, hfreshg] at ha'
              cases ha'
        | nil =>
          have hcore : ∀ s' : CState, s'.gens = setPhase s.gens c Phase.halted →
              s'.log = s.log ++ [WEvent.respDone g.aid] →
              s'.ctr = s.ctr → s'.clock = s.clock → s'.cancelled = s.cancelled →
              (s'.currentCts = none ∧ s'.currentAid = none ∧ s.currentCts = some c ∨
                s'.currentCts = s.currentCts ∧ s'.currentAid = s.currentAid ∧
                  ¬s.currentCts = some c) →
              Inv s' := by
            intro s' hg' hl' hctr' hck' hcanc' hcur'
            constructor
            · intro h hm
              rw [hg'] at hm
              rcases mem_setPhase_cases hm with ⟨g0, hg0, hcts0, _, _⟩
              rw [hctr', hcts0]
              exact hI.hctr g0 hg0
            · rw [hg', setPhase_map_cts]; exact hI.hcts
            · intro h hm
              rw [hg'] at hm
              rcases mem_setPhase_cases hm with ⟨g0, hg0, _, haid0, _⟩
              rcases hI.haid g0 hg0 with ⟨n, hn, he⟩
              exact ⟨n, by rw [hck']; exact hn, by rw [haid0, he]⟩
            · rw [hg', setPhase_map_aid]; exact hI.haids
            · rcases hcur' with ⟨h1, h2, _⟩ | ⟨h1, h2, _⟩
              · intro _; exact h2
              · rw [h1, h2]; exact hI.hcurNone
            · rcases hcur' with ⟨h1, h2, _⟩ | ⟨h1, h2, _⟩
              · intro c' hcc'; rw [h1] at hcc'; cases hcc'
              · intro c' hcc'
                rw [h1] at hcc'
                rcases hI.hcurSome c' hcc' with ⟨ha, g2, hg2, hg2c, hg2a⟩
                refine ⟨by rw [h2, hck']; exact ha, ?_⟩
                rw [hg', hck']
                exact ⟨_, mem_setPhase_of_mem hg2 c Phase.halted,
                  (setPhase_entry_cts g2 c _).trans hg2c,
                  (setPhase_entry_aid g2 c _).trans hg2a⟩
            · intro h hm hph2 hnc
              rw [hg'] at hm
              rw [hcanc'] at hnc
              rcases mem_setPhase_cases hm with ⟨g0, hg0, hcts0, _, hdisj⟩
              have hnc' : g0.cts ∉ s.cancelled := by rw [← hcts0]; exact hnc
              rcases hdisj with ⟨_, hphset⟩ | ⟨hg0c, heq⟩
              · exact absurd hphset hph2
              · have hcur : s.currentCts = some g0.cts :=
                  hI.hlive g0 hg0 (by rw [← heq]; exact hph2) hnc'
                rcases hcur' with ⟨h1, _, h4⟩ | ⟨h1, _, h3⟩
                · exfalso
                  rw [hcur] at h4
                  injection h4 with h5
                  exact hg0c h5
                · rw [h1, hcur, hcts0]
            · intro h hm hph2 hnc
              rw [hg'] at hm
              rw [hcanc'] at hnc
              rw [hl']
              rcases mem_setPhase_cases hm with ⟨g0, hg0, hcts0, haid0, hdisj⟩
              have hnc' : g0.cts ∉ s.cancelled := by rw [← hcts0]; exact hnc
              rcases hdisj with ⟨_, hphset⟩ | ⟨hg0c, heq⟩
              · exact absurd hphset hph2
              · have h1 : hasDoneFor g0.aid s.log = false :=
                  hI.hfresh g0 hg0 (by rw [← heq]; exact hph2) hnc'
                have hne : g0 ≠ g := fun he => hg0c (by rw [he, hgc])
                have hane : g0.aid ≠ g.aid := aid_ne_of_ne hI.haids hg0 hgmem hne
                rw [haid0, hasDoneFor_append, h1, Bool.false_or, hasDoneFor_done]
                exact beq_eq_false_iff_ne.mpr hane
            · intro a' hdisj
              rw [hl'] at hdisj
              rw [hg']
              rcases hdisj with hd | hd
              · rw [hasDoneFor_append] at hd
                simp only [Bool.or_eq_true] at hd
                rcases hd with h2 | h2
                · exact aid_witness_setPhase (hI.hprov a' (Or.inl h2))
                · rw [hasDoneFor_done] at h2
                  exact aid_witness_setPhase ⟨g, hgmem, (eq_of_beq h2).symm⟩
              · rw [hasDeltaFor_append] at hd
                simp only [Bool.or_eq_true] at hd
                rcases hd with h2 | h2
                · exact aid_witness_setPhase (hI.hprov a' (Or.inr h2))
                · rw [hasDeltaFor_done] at h2
                  cases h2
            · rw [hl']
              exact orderOKb_append _ _ hI.hord (orderOKb_done g.aid) fun a' _ =>
                hasDeltaFor_done a' g.aid
          by_cases hcc : s.currentCts = some c
          · rw [provTick_done_cur hf hph hcanc hcc]
            exact hcore _ rfl rfl rfl rfl rfl (Or.inl ⟨rfl, rfl, hcc⟩)
          · rw [provTick_done_other hf hph hcanc hcc]
            exact hcore _ rfl rfl rfl rfl rfl (Or.inr ⟨rfl, rfl, hcc⟩)

theorem inv_start_core (t : CState) (hIt : Inv t) (now : Nat) (res : InitRes)
    (hnow : t.clock < now) (hcur : t.currentCts = none) :
    Inv { t with
      clock := max t.clock now
      ctr := t.ctr + 1
      currentCts := some t.ctr
      currentAid := some (decStr (max t.clock now))
      gens := t.gens ++ [⟨t.ctr, decStr (max t.clock now), Phase.pending res⟩] } := by
  have hmax : max t.clock now = now := Nat.max_eq_right (Nat.le_of_lt hnow)
  have hcanc : ∀ g ∈ t.gens, ¬g.phase = Phase.halted → g.cts ∈ t.cancelled := by
    intro g hg hph
    by_cases hnc : g.cts ∈ t.cancelled
    · exact hnc
    · have h2 := hIt.hlive g hg hph hnc
      rw [hcur] at h2
      cases h2
  have hfreshaid : ∀ g0 ∈ t.gens, g0.aid ≠ decStr (max t.clock now) := by
    intro g0 hg0 he
    rcases hIt.haid g0 hg0 with ⟨n, hn, ha⟩
    rw [ha, hmax] at he
    have := decStr_injective he
    omega
  constructor
  · intro h hm
    rcases List.mem_append.mp hm with hm | hm
    · have := hIt.hctr h hm
      show h.cts < t.ctr + 1
      omega
    · rw [List.mem_singleton.mp hm]
      show t.ctr < t.ctr + 1
      omega
  · show ((t.gens ++ [(⟨t.ctr, decStr (max t.clock now), Phase.pending res⟩ : Gen)]).map Gen.cts).Nodup
    rw [List.map_append]
    rw [List.nodup_append]
    refine ⟨hIt.hcts, List.nodup_singleton _, ?_⟩
    intro x hx hx2
    rcases List.mem_map.mp hx with ⟨g0, hg0, he⟩
    rcases List.mem_map.mp hx2 with ⟨g1, hg1, he1⟩
    rw [List.mem_singleton.mp hg1] at he1
    have := hIt.hctr g0 hg0
    rw [he] at this
    rw [← he1] at this
    exact Nat.lt_irrefl _ this
  · intro h hm
    rcases List.mem_append.mp hm with hm | hm
    · rcases hIt.haid h hm with ⟨n, hn, he⟩
      exact ⟨n, Nat.le_trans hn (Nat.le_max_left _ _), he⟩
    · rw [List.mem_singleton.mp hm]
      exact ⟨max t.clock now, Nat.le_refl _, rfl⟩
  · show ((t.gens ++ [(⟨t.ctr, decStr (max t.clock now), Phase.pending res⟩ : Gen)]).map Gen.aid).Nodup
    rw [List.map_append]
    rw [List.nodup_append]
    refine ⟨hIt.haids, List.nodup_singleton _, ?_⟩
    intro x hx hx2
    rcases List.mem_map.mp hx with ⟨g0, hg0, he⟩
    rcases List.mem_map.mp hx2 with ⟨g1, hg1, he1⟩
    rw [List.mem_singleton.mp hg1] at he1
    apply hfreshaid g0 hg0
    rw [he, ← he1]
  · intro h2; cases h2
  · intro c' hcc'
    have h2 : some t.ctr = some c' := hcc'
    have hc' : c' = t.ctr := by
      injection h2 with h3
      exact h3.symm
    subst hc'
    refine ⟨rfl, ⟨t.ctr, decStr (max t.clock now), Phase.pending res⟩, ?_, rfl, rfl⟩
    exact List.mem_append_right _ (List.mem_singleton_self _)
  · intro h hm hph hnc
    rcases List.mem_append.mp hm with hm | hm
    · exfalso
      exact hnc (hcanc h hm hph)
    · rw [List.mem_singleton.mp hm]
  · intro h hm hph hnc
    rcases List.mem_append.mp hm with hm | hm
    · exfalso
      exact hnc (hcanc h hm hph)
    · rw [List.mem_singleton.mp hm]
      show hasDoneFor (decStr (max t.clock now)) t.log = false
      cases hdf : hasDoneFor (decStr (max t.clock now)) t.log with
      | false => rfl
      | true =>
        exfalso
        rcases hIt.hprov _ (Or.inl hdf) with ⟨g0, hg0, haeq⟩
        exact hfreshaid g0 hg0 haeq
  · intro a' hdisj
    rcases hIt.hprov a' hdisj with ⟨g0, hg0, haeq⟩
    exact ⟨g0, List.mem_append_left _ hg0, haeq⟩
  · exact hIt.hord

theorem stopChat_false_gens (s : CState) : (stopChat s false).gens = s.gens := by
  cases hc : s.currentCts with
  | none => rw [stopChat_none s false hc]
  | some c => rw [stopChat_some_false hc]

theorem stopChat_false_clock (s : CState) : (stopChat s false).clock = s.clock := by
  cases hc : s.currentCts with
  | none => rw [stopChat_none s false hc]
  | some c => rw [stopChat_some_false hc]

theorem stopChat_false_cur (s : CState) : (stopChat s false).currentCts = none := by
  cases hc : s.currentCts with
  | none => rw [stopChat_none s false hc]; exact hc
  | some c => rw [stopChat_some_false hc]

theorem startStreaming_eq (s : CState) (now : Nat) (res : InitRes) :
    startStreaming s now res
      = { stopChat s false with
          clock := max (stopChat s false).clock now
          ctr := (stopChat s false).ctr + 1
          currentCts := some (stopChat s false).ctr
          currentAid := some (decStr (max (stopChat s false).clock now))
          gens := (stopChat s false).gens
            ++ [⟨(stopChat s false).ctr, decStr (max (stopChat s false).clock now),
                  Phase.pending res⟩] } := rfl

theorem inv_start (s : CState) (hI : Inv s) (now : Nat) (res : InitRes)
    (hnow : s.clock < now) : Inv (startStreaming s now res) := by
  rw [startStreaming_eq]
  exact inv_start_core (stopChat s false) (inv_stop s hI false) now res
    (by rw [stopChat_false_clock]; exact hnow) (stopChat_false_cur s)

theorem startStreaming_clock (s : CState) (now : Nat) (res : InitRes) :
    (startStreaming s now res).clock = max s.clock now := by
  rw [startStreaming_eq]
  show max (stopChat s false).clock now = max s.clock now
  rw [stopChat_false_clock]

theorem stopChat_clock (s : CState) (hv : Bool) : (stopChat s hv).clock = s.clock := by
  cases hc : s.currentCts with
  | none => rw [stopChat_none s hv hc]
  | some c =>
    cases hv with
    | false => rw [stopChat_some_false hc]
    | true =>
      cases ha : s.currentAid with
      | none => simp [stopChat, hc, ha]
      | some a => rw [stopChat_some_true hc ha]

theorem resolveInit_clock (s : CState) (c : Nat) : (resolveInit s c).clock = s.clock := by
  cases hf : findGen s.gens c with
  | none => rw [resolveInit_none hf]
  | some g =>
    cases hph : g.phase with
    | halted => rw [resolveInit_halted hf hph]
    | streaming rest => rw [resolveInit_streaming hf hph]
    | pending res =>
      cases res with
      | ok ds => rw [resolveInit_ok hf hph]
      | fail m =>
        by_cases hcc : s.currentCts = some c
        · rw [resolveInit_fail_cur hf hph hcc]
        · rw [resolveInit_fail_other hf hph hcc]

theorem provTick_clock (s : CState) (c : Nat) : (provTick s c).clock = s.clock := by
  cases hf : findGen s.gens c with
  | none => rw [provTick_none hf]
  | some g =>
    cases hph : g.phase with
    | halted => rw [provTick_halted hf hph]
    | pending res => rw [provTick_pending hf hph]
    | streaming rest =>
      by_cases hcanc : c ∈ s.cancelled
      · rw [provTick_cancelled hf hph hcanc]
      · cases rest with
        | cons d rest2 => rw [provTick_delta hf hph hcanc]
        | nil =>
          by_cases hcc : s.currentCts = some c
          · rw [provTick_done_cur hf hph hcanc hcc]
          · rw [provTick_done_other hf hph hcanc hcc]

/-- Invariant preservation along any action list whose `start` clocks
strictly advance. -/
theorem inv_foldl : ∀ (acts : List Act) (s : CState), Inv s →
    clocksOK acts s.clock = true → Inv (acts.foldl applyAct s) := by
  intro acts
  induction acts with
  | nil => intro s hI _; exact hI
  | cons a rest ih =>
    intro s hI hck
    cases a with
    | start now res =>
      simp only [clocksOK, Bool.and_eq_true, decide_eq_true_eq] at hck
      rw [List.foldl_cons]
      refine ih _ (inv_start s hI now res hck.1) ?_
      show clocksOK rest (startStreaming s now res).clock = true
      rw [startStreaming_clock, Nat.max_eq_right (Nat.le_of_lt hck.1)]
      exact hck.2
    | stopCmd hv =>
      rw [List.foldl_cons]
      refine ih _ (inv_stop s hI hv) ?_
      show clocksOK rest (stopChat s hv).clock = true
      rw [stopChat_clock]
      exact hck
    | resolve c =>
      rw [List.foldl_cons]
      refine ih _ (inv_resolve s hI c) ?_
      show clocksOK rest (resolveInit s c).clock = true
      rw [resolveInit_clock]
      exact hck
    | tick c =>
      rw [List.foldl_cons]
      refine ih _ (inv_tick s hI c) ?_
      show clocksOK rest (provTick s c).clock = true
      rw [provTick_clock]
      exact hck

theorem inv_runActs (acts : List Act) (h : clocksOK acts 0 = true) :
    Inv (runActs acts) :=
  inv_foldl acts initState inv_initState h

theorem runActs_append (l1 l2 : List Act) :
    runActs (l1 ++ l2) = l2.foldl applyAct (runActs l1) := by
  simp [runActs, List.foldl_append]

theorem foldl_applyAct_noop {s : CState} {a : Act} (h : applyAct s a = s) :
    ∀ n, (List.replicate n a).foldl applyAct s = s := by
  intro n
  induction n with
  | zero => rfl
  | succ m ih => rw [List.replicate_succ, List.foldl_cons, h, ih]

theorem eq_nil_of_self_eq_append {x l : List WEvent} (he : x = x ++ l) : l = [] := by
  have h0 : l.length = 0 := by
    have h2 := congrArg List.length he
    rw [List.length_append] at h2
    omega
  exact List.eq_nil_of_length_eq_zero h0

/-- C2 counterexample: a handle superseded by a later `startStreaming`
call receives a Delta but never any Done: the internal `stop()` at
ChatService.ts:154 passes no webview, so no synthesized Done is posted
for it, and its cancelled provider fires no `onDone`.  The run below is
complete (every generation halted, no tracked handle), yet the log for
id "1" is a lone Delta. -/
theorem chat_superseded_handle_no_done :
    (runActs [Act.start 1 (InitRes.ok ["A"]), Act.resolve 0, Act.tick 0,
        Act.start 2 (InitRes.ok []), Act.tick 0, Act.resolve 1, Act.tick 1]).log
      = [WEvent.respDelta "1" "A", WEvent.respDone "2"] ∧
      hasDoneFor "1" (runActs [Act.start 1 (InitRes.ok ["A"]), Act.resolve 0, Act.tick 0,
        Act.start 2 (InitRes.ok []), Act.tick 0, Act.resolve 1, Act.tick 1]).log = false ∧
      ((runActs [Act.start 1 (InitRes.ok ["A"]), Act.resolve 0, Act.tick 0,
        Act.start 2 (InitRes.ok []), Act.tick 0, Act.resolve 1, Act.tick 1]).gens.map Gen.phase)
        = [Phase.halted, Phase.halted] ∧
      (runActs [Act.start 1 (InitRes.ok ["A"]), Act.resolve 0, Act.tick 0,
        Act.start 2 (InitRes.ok []), Act.tick 0, Act.resolve 1, Act.tick 1]).currentCts = none := by
  refine ⟨by decide, by decide, by decide, by decide⟩

/-- C2 (amended): for every sequence of actions whose `start` clocks
are distinct, the webview log never shows a Delta tagged with some id
after a Done tagged with the same id — each handle's event sequence is
zero-or-more Deltas followed only by Done events. -/
theorem chat_no_delta_after_done (acts : List Act) (h : clocksOK acts 0 = true) :
    orderOKb (runActs acts).log = true :=
  (inv_runActs acts h).hord

theorem chat_no_delta_after_done_witness :
    clocksOK [Act.start 1 (InitRes.ok ["A"]), Act.resolve 0, Act.tick 0, Act.tick 0,
        Act.start 2 (InitRes.fail "boom"), Act.stopCmd true, Act.resolve 1] 0 = true ∧
      orderOKb (runActs [Act.start 1 (InitRes.ok ["A"]), Act.resolve 0, Act.tick 0, Act.tick 0,
        Act.start 2 (InitRes.fail "boom"), Act.stopCmd true, Act.resolve 1]).log = true :=
  ⟨by decide, chat_no_delta_after_done _ (by decide)⟩

/-- C1 counterexample: the delta callback that `startStreaming` wires
into `provider.stream` (ChatService.ts:191-193) does not drop late
callbacks whose cancellation source is no longer the tracked one — it
posts the delta to the webview unconditionally.  Below, generation 0
(source id 0, assistant id "1") has been superseded (the tracked source
is 1), yet invoking its delta callback still appends the delta. -/
theorem chat_forwards_stale_delta :
    (startStreaming (startStreaming initState 1 (InitRes.ok ["A"])) 2
        (InitRes.ok [])).currentCts = some 1 ∧
      ¬(startStreaming (startStreaming initState 1 (InitRes.ok ["A"])) 2
        (InitRes.ok [])).currentCts = some 0 ∧
      (chatOnDelta (startStreaming (startStreaming initState 1 (InitRes.ok ["A"])) 2
          (InitRes.ok [])) "1" "late").log
        = (startStreaming (startStreaming initState 1 (InitRes.ok ["A"])) 2
            (InitRes.ok [])).log ++ [WEvent.respDelta "1" "late"] := by
  refine ⟨by decide, by decide, by decide⟩

/-- C1 (amended): only the most recent handle's deltas reach the
webview sink.  Every Delta appended by a step of the system is tagged
with the orchestrator's currently tracked assistant id, which is the id
minted by the most recent `startStreaming` call; superseded providers
emit nothing after their cancellation because each provider checks its
token before emitting — not because the orchestrator filters the
callbacks. -/
theorem chat_delta_only_current (acts : List Act) (a : Act)
    (h : clocksOK acts 0 = true) (aid d : String) (l : List WEvent)
    (hlog : (applyAct (runActs acts) a).log = (runActs acts).log ++ l)
    (hmem : WEvent.respDelta aid d ∈ l) :
    (runActs acts).currentAid = some aid ∧ aid = decStr (runActs acts).clock := by
  have hI := inv_runActs acts h
  cases a with
  | start now res =>
    exfalso
    have hlogeq : (startStreaming (runActs acts) now res).log = (runActs acts).log := by
      rw [startStreaming_eq]
      show (stopChat (runActs acts) false).log = (runActs acts).log
      cases hc : (runActs acts).currentCts with
      | none => rw [stopChat_none _ false hc]
      | some c => rw [stopChat_some_false hc]
    rw [show applyAct (runActs acts) (Act.start now res)
        = startStreaming (runActs acts) now res from rfl, hlogeq] at hlog
    rw [eq_nil_of_self_eq_append hlog] at hmem
    cases hmem
  | stopCmd hv =>
    exfalso
    have hstep : applyAct (runActs acts) (Act.stopCmd hv) = stopChat (runActs acts) hv := rfl
    rw [hstep] at hlog
    cases hc : (runActs acts).currentCts with
    | none =>
      rw [stopChat_none _ hv hc] at hlog
      rw [eq_nil_of_self_eq_append hlog] at hmem
      cases hmem
    | some c =>
      cases hv with
      | false =>
        rw [stopChat_some_false hc] at hlog
        have hlog2 : (runActs acts).log = (runActs acts).log ++ l := hlog
        rw [eq_nil_of_self_eq_append hlog2] at hmem
        cases hmem
      | true =>
        rcases hI.hcurSome c hc with ⟨ha, _⟩
        rw [stopChat_some_true hc ha] at hlog
        have hlog2 : (runActs acts).log ++ [WEvent.respDone (decStr (runActs acts).clock)]
            = (runActs acts).log ++ l := hlog
        have hl : l = [WEvent.respDone (decStr (runActs acts).clock)] :=
          (List.append_cancel_left hlog2).symm
        rw [hl] at hmem
        simp at hmem
  | resolve c =>
    have hstep : applyAct (runActs acts) (Act.resolve c) = resolveInit (runActs acts) c := rfl
    rw [hstep] at hlog
    cases hf : findGen (runActs acts).gens c with
    | none =>
      exfalso
      rw [resolveInit_none hf] at hlog
      rw [eq_nil_of_self_eq_append hlog] at hmem
      cases hmem
    | some g =>
      cases hph : g.phase with
      | halted =>
        exfalso
        rw [resolveInit_halted hf hph] at hlog
        rw [eq_nil_of_self_eq_append hlog] at hmem
        cases hmem
      | streaming rest =>
        exfalso
        rw [resolveInit_streaming hf hph] at hlog
        rw [eq_nil_of_self_eq_append hlog] at hmem
        cases hmem
      | pending res =>
        cases res with
        | ok ds =>
          exfalso
          rw [resolveInit_ok hf hph] at hlog
          have hlog2 : (runActs acts).log = (runActs acts).log ++ l := hlog
          rw [eq_nil_of_self_eq_append hlog2] at hmem
          cases hmem
        | fail m =>
          exfalso
          have hl : l = [WEvent.errMsg m, WEvent.respDone g.aid] := by
            by_cases hcc : (runActs acts).currentCts = some c
            · rw [resolveInit_fail_cur hf hph hcc] at hlog
              have hlog2 : (runActs acts).log ++ [WEvent.errMsg m, WEvent.respDone g.aid]
                  = (runActs acts).log ++ l := hlog
              exact (List.append_cancel_left hlog2).symm
            · rw [resolveInit_fail_other hf hph hcc] at hlog
              have hlog2 : (runActs acts).log ++ [WEvent.errMsg m, WEvent.respDone g.aid]
                  = (runActs acts).log ++ l := hlog
              exact (List.append_cancel_left hlog2).symm
          rw [hl] at hmem
          simp at hmem
  | tick c =>
    have hstep : applyAct (runActs acts) (Act.tick c) = provTick (runActs acts) c := rfl
    rw [hstep] at hlog
    cases hf : findGen (runActs acts).gens c with
    | none =>
      exfalso
      rw [provTick_none hf] at hlog
      rw [eq_nil_of_self_eq_append hlog] at hmem
      cases hmem
    | some g =>
      have hgmem : g ∈ (runActs acts).gens := findGen_mem hf
      have hgc : g.cts = c := findGen_cts hf
      cases hph : g.phase with
      | halted =>
        exfalso
        rw [provTick_halted hf hph] at hlog
        rw [eq_nil_of_self_eq_append hlog] at hmem
        cases hmem
      | pending res =>
        exfalso
        rw [provTick_pending hf hph] at hlog
        rw [eq_nil_of_self_eq_append hlog] at hmem
        cases hmem
      | streaming rest =>
        by_cases hcanc : c ∈ (runActs acts).cancelled
        · exfalso
          rw [provTick_cancelled hf hph hcanc] at hlog
          have hlog2 : (runActs acts).log = (runActs acts).log ++ l := hlog
          rw [eq_nil_of_self_eq_append hlog2] at hmem
          cases hmem
        · cases rest with
          | nil =>
            exfalso
            have hl : l = [WEvent.respDone g.aid] := by
              by_cases hcc : (runActs acts).currentCts = some c
              · rw [provTick_done_cur hf hph hcanc hcc] at hlog
                have hlog2 : (runActs acts).log ++ [WEvent.respDone g.aid]
                    = (runActs acts).log ++ l := hlog
                exact (List.append_cancel_left hlog2).symm
              · rw [provTick_done_other hf hph hcanc hcc] at hlog
                have hlog2 : (runActs acts).log ++ [WEvent.respDone g.aid]
                    = (runActs acts).log ++ l := hlog
                exact (List.append_cancel_left hlog2).symm
            rw [hl] at hmem
            simp at hmem
          | cons d0 rest2 =>
            rw [provTick_delta hf hph hcanc] at hlog
            have hlog2 : (runActs acts).log ++ [WEvent.respDelta g.aid d0]
                = (runActs acts).log ++ l := hlog
            have hl : l = [WEvent.respDelta g.aid d0] :=
              (List.append_cancel_left hlog2).symm
            rw [hl] at hmem
            simp at hmem
            have hcur : (runActs acts).currentCts = some g.cts :=
              hI.hlive g hgmem (by rw [hph]; intro h2; cases h2) (by rw [hgc]; exact hcanc)
            rcases hI.hcurSome g.cts hcur with ⟨ha, g2, hg2, hg2c, hg2a⟩
            have hg2g : g2 = g := eq_of_cts_eq hI.hcts hg2 hgmem hg2c
            rw [hg2g] at hg2a
            refine ⟨?_, by rw [hmem.1, hg2a]⟩
            rw [ha, hmem.1, hg2a]

theorem chat_delta_only_current_witness :
    clocksOK [Act.start 1 (InitRes.ok ["A"]), Act.resolve 0] 0 = true ∧
      (applyAct (runActs [Act.start 1 (InitRes.ok ["A"]), Act.resolve 0]) (Act.tick 0)).log
        = (runActs [Act.start 1 (InitRes.ok ["A"]), Act.resolve 0]).log
          ++ [WEvent.respDelta "1" "A"] ∧
      WEvent.respDelta "1" "A" ∈ [WEvent.respDelta "1" "A"] ∧
      ((runActs [Act.start 1 (InitRes.ok ["A"]), Act.resolve 0]).currentAid = some "1" ∧
        "1" = decStr (runActs [Act.start 1 (InitRes.ok ["A"]), Act.resolve 0]).clock) :=
  ⟨by decide, by decide, by decide,
    chat_delta_only_current [Act.start 1 (InitRes.ok ["A"]), Act.resolve 0] (Act.tick 0)
      (by decide) "1" "A" [WEvent.respDelta "1" "A"] (by decide) (by decide)⟩

/-- C9 counterexample: two `startStreaming` calls within the same
clock millisecond return the same identifier — `String(Date.now())`
(ChatService.ts:159) is not unique within one tick.  Two generations
exist (the counter reaches 2) but both carry the id "5". -/
theorem chat_same_tick_ids_collide :
    (runActs [Act.start 5 (InitRes.ok []), Act.start 5 (InitRes.ok [])]).ctr = 2 ∧
      ((runActs [Act.start 5 (InitRes.ok []), Act.start 5 (InitRes.ok [])]).gens.map Gen.aid)
        = ["5", "5"] := by
  refine ⟨by decide, by decide⟩

/-- C9 (amended): identifiers returned by `startStreaming` are distinct
whenever the clock strictly advances between calls; within one clock
tick the timestamp-derived ids collide. -/
theorem chat_ids_distinct (acts : List Act) (h : clocksOK acts 0 = true) :
    ((runActs acts).gens.map Gen.aid).Nodup :=
  (inv_runActs acts h).haids

theorem chat_ids_distinct_witness :
    clocksOK [Act.start 1 (InitRes.ok []), Act.start 2 (InitRes.ok [])] 0 = true ∧
      ((runActs [Act.start 1 (InitRes.ok []), Act.start 2 (InitRes.ok [])]).gens.map
        Gen.aid).Nodup :=
  ⟨by decide, chat_ids_distinct [Act.start 1 (InitRes.ok []), Act.start 2 (InitRes.ok [])]
    (by decide)⟩

/-- C6: when the OpenAI-compatible provider is selected and no
credential is found in the secret store or the environment,
`startStreaming` delivers exactly one ErrorEvent then exactly one Done
for the new handle, zero deltas, and the generation goes from pending
straight to halted — the stream is never opened. -/
theorem chat_missing_openai_key (secrets : String → Option String)
    (envKey : Option String) (netDeltas : List String)
    (hkey : resolveOpenAIKey secrets envKey = none) :
    (runActs [Act.start 1 (initProviderOpenAI secrets envKey netDeltas),
        Act.resolve 0]).log
      = [WEvent.errMsg openaiKeyErrMsg, WEvent.respDone "1"] ∧
      ((runActs [Act.start 1 (initProviderOpenAI secrets envKey netDeltas)]).gens.map
        Gen.phase) = [Phase.pending (InitRes.fail openaiKeyErrMsg)] ∧
      ((runActs [Act.start 1 (initProviderOpenAI secrets envKey netDeltas),
        Act.resolve 0]).gens.map Gen.phase) = [Phase.halted] := by
  have hfail : initProviderOpenAI secrets envKey netDeltas
      = InitRes.fail openaiKeyErrMsg := by
    unfold initProviderOpenAI
    rw [hkey]
  rw [hfail]
  refine ⟨by decide, by decide, by decide⟩

theorem chat_missing_openai_key_witness :
    resolveOpenAIKey (fun _ => none) none = none ∧
      ((runActs [Act.start 1 (initProviderOpenAI (fun _ => none) none ["net"]),
          Act.resolve 0]).log
        = [WEvent.errMsg openaiKeyErrMsg, WEvent.respDone "1"] ∧
        ((runActs [Act.start 1 (initProviderOpenAI (fun _ => none) none ["net"])]).gens.map
          Gen.phase) = [Phase.pending (InitRes.fail openaiKeyErrMsg)] ∧
        ((runActs [Act.start 1 (initProviderOpenAI (fun _ => none) none ["net"]),
          Act.resolve 0]).gens.map Gen.phase) = [Phase.halted]) :=
  ⟨rfl, chat_missing_openai_key (fun _ => none) none ["net"] rfl⟩

/-- C8: starting the mock provider and stopping before its first tick
emits any token yields zero Delta events and exactly one Done — the
cancelled MockProvider ceases emission without calling `onDone`
(part_004 lines 24-29), and `stop()` supplies the terminal Done
(ChatService.ts:236-238).  Both interleavings of the stop with the
provider resolution behave identically, and any number of later
provider ticks adds nothing. -/
theorem chat_stop_before_mock_tick (userText : String) (model : Option String) (n : Nat) :
    (runActs ([Act.start 1 (InitRes.ok (mockChunks userText model)), Act.resolve 0,
        Act.stopCmd true] ++ List.replicate n (Act.tick 0))).log = [WEvent.respDone "1"] ∧
      (runActs ([Act.start 1 (InitRes.ok (mockChunks userText model)), Act.stopCmd true,
        Act.resolve 0] ++ List.replicate n (Act.tick 0))).log = [WEvent.respDone "1"] := by
  have key : ∀ pre : List Act,
      runActs pre = (⟨1, 1, none, none, [0],
        [⟨0, "1", Phase.streaming (mockChunks userText model)⟩],
        [WEvent.respDone "1"]⟩ : CState) →
      (runActs (pre ++ List.replicate n (Act.tick 0))).log = [WEvent.respDone "1"] := by
    intro pre hpre
    rw [runActs_append, hpre]
    cases n with
    | zero => rfl
    | succ m =>
      rw [List.replicate_succ, List.foldl_cons]
      have h1 : applyAct (⟨1, 1, none, none, [0],
          [⟨0, "1", Phase.streaming (mockChunks userText model)⟩],
          [WEvent.respDone "1"]⟩ : CState) (Act.tick 0)
          = (⟨1, 1, none, none, [0], [⟨0, "1", Phase.halted⟩],
             [WEvent.respDone "1"]⟩ : CState) := rfl
      rw [h1, foldl_applyAct_noop rfl m]
  exact ⟨key _ rfl, key _ rfl⟩

end ChatSpec
